import Mathlib

/-!
Shallow embedding of the acquisition/resilience pipeline of the `academia`
literature-review assistant (source: `src/api/proxy.js` — a bundle holding the
proxy handler, the current `geminiService` module, the scholar scraper handler
and the current `ResultsView` component — together with
`src/services/geminiService.ts`).

Conventions:
* JavaScript strings are Lean `String`s; character-level scanning is done on
  `String.data` (`List Char`).
* JavaScript truthiness on optional strings (`a || b`) is modelled by `jsOrS`:
  `none` and `some ""` are falsy.
* `Date.now()` timestamps are `Int`s and every timer (`setTimeout`) is turned
  into an explicit deadline carried in the state, checked against an injected
  clock.
* Regular-expression scans from the source are implemented as explicit
  leftmost-match scanners over `List Char`; `/i`-flagged patterns compare
  characters through `Char.toLower`.
-/

namespace Academia

/-! ### Generic character/list helpers (regex-free embeddings of the scans) -/

/-- Case-sensitive test that `pat` starts the list `s`. -/
def leadsWith : List Char → List Char → Bool
  | [], _ => true
  | _ :: _, [] => false
  | p :: ps, c :: cs => (p == c) && leadsWith ps cs

/-- Case-insensitive (`/i` flag) variant of `leadsWith`. -/
def leadsWithCI : List Char → List Char → Bool
  | [], _ => true
  | _ :: _, [] => false
  | p :: ps, c :: cs => (p.toLower == c.toLower) && leadsWithCI ps cs

/-- Case-sensitive substring test: JavaScript `String.prototype.includes`. -/
def containsSub (pat : List Char) : List Char → Bool
  | [] => leadsWith pat []
  | c :: rest => leadsWith pat (c :: rest) || containsSub pat rest

/-- Case-insensitive substring test (used for `/i` patterns). -/
def containsSubCI (pat : List Char) : List Char → Bool
  | [] => leadsWithCI pat []
  | c :: rest => leadsWithCI pat (c :: rest) || containsSubCI pat rest

/-- JavaScript `haystack.includes(needle)` on `String`s. -/
def strContains (haystack needle : String) : Bool :=
  containsSub needle.data haystack.data

/-- Leftmost-first scan: try the matcher `f` at every suffix of the input,
returning the first hit. -/
def scanFirst {α : Type} (f : List Char → Option α) : List Char → Option α
  | [] => f []
  | c :: rest =>
    match f (c :: rest) with
    | some a => some a
    | none => scanFirst f rest

/-- Consume a case-insensitive literal, returning the rest of the input. -/
def matchLitCI (pat s : List Char) : Option (List Char) :=
  if leadsWithCI pat s then some (s.drop pat.length) else none

/-- Consume `\s+` (one or more whitespace characters, maximal run). -/
def matchWs1 (s : List Char) : Option (List Char) :=
  match s with
  | c :: rest => if c.isWhitespace then some (rest.dropWhile Char.isWhitespace) else none
  | [] => none

/-- Consume `\s*` (maximal whitespace run). -/
def matchWs0 (s : List Char) : List Char :=
  s.dropWhile Char.isWhitespace

/-- Capture `[^x]*` up to the closing character `stop`, which must be present;
returns the capture and the rest after the closing character. -/
def captureUntil (stop : Char) : List Char → Option (List Char × List Char)
  | [] => none
  | c :: rest =>
    if c == stop then some ([], rest)
    else (captureUntil stop rest).map (fun p => (c :: p.1, p.2))

/-! ### Basic keyword extraction (`extractKeywordsBasic`, proxy.js 162-176) -/

/-- Stop-word set of `extractKeywordsBasic` (proxy.js 164-168), verbatim. -/
def stopWords : List String :=
  ["what", "how", "does", "do", "the", "a", "an", "in", "on", "of", "for", "to", "from",
   "with", "by", "actually", "capture", "based", "is", "are", "between", "among",
   "analysis", "study", "investigation", "review", "overview", "components",
   "information", "about", "regarding", "using", "via", "effect", "impact"]

/-- JavaScript `\w` character class: ASCII letters, digits, underscore. -/
def isWordChar (c : Char) : Bool :=
  c.isAlphanum || c == '_'

/-- Insertion-ordered deduplication, the semantics of `[...new Set(words)]`:
keeps the first occurrence of each element. -/
def setDedup (seen : List String) : List String → List String
  | [] => []
  | w :: ws => if seen.contains w then setDedup seen ws else w :: setDedup (w :: seen) ws

/-- Character-level string split (kernel-computable equivalent of
`String.split`): each separator character ends a field, empty fields
included. -/
def splitChars (p : Char → Bool) (cur : List Char) : List Char → List String
  | [] => [String.mk cur.reverse]
  | c :: rest =>
    if p c then String.mk cur.reverse :: splitChars p [] rest
    else splitChars p (c :: cur) rest

/-- The filtered token list of `extractKeywordsBasic` before deduplication:
`text.toLowerCase().replace(/[^\w\s-]/g, '').split(/\s+/)` filtered by the
stop-word set and minimum length. (`split(/\s+/)` and the character split
differ only in how they emit empty fragments, all of which the `length > 2`
filter removes.) -/
def keptTokens (text : String) : List String :=
  let lowered : List Char := text.data.map Char.toLower
  let stripped : List Char := lowered.filter fun c =>
    isWordChar c || c.isWhitespace || c == '-'
  let words := splitChars Char.isWhitespace [] stripped
  words.filter fun w => !stopWords.contains w && w.length > 2

/-- The token list produced by `extractKeywordsBasic` before joining:
the filtered tokens deduplicated via `new Set`. -/
def extractKeywordsBasicWords (text : String) : List String :=
  setDedup [] (keptTokens text)

/-- `extractKeywordsBasic` (proxy.js 162-176 and geminiService.ts 96-110,
identical in both variants): joined keyword string. -/
def extractKeywordsBasic (text : String) : String :=
  String.intercalate " " (extractKeywordsBasicWords text)

/-! ### Paper data model and the primary provider record mapping
(`searchSemanticScholar`, proxy.js 322-465) -/

/-- The mapped bibliographic record (proxy.js 439-449). -/
structure Paper where
  title : String
  authors : String
  year : String
  doi : Option String
  url : Option String
  openAccessPdf : Option String
  semanticReaderLink : Option String
  summary : String
deriving Repr, DecidableEq

/-- JavaScript `a || b` on nullable strings: `null`/`undefined` and `""` are
falsy. -/
def jsOrS (a b : Option String) : Option String :=
  match a with
  | some s => if s = "" then b else some s
  | none => b

/-- `a || null`: collapses the falsy empty string to `null`. -/
def jsToNull (a : Option String) : Option String := jsOrS a none

/-- `a || d` where the fallback is a plain string. -/
def jsOrDefault (a : Option String) (d : String) : String :=
  (jsOrS a (some d)).getD d

/-- An entry of a raw Semantic Scholar `authors` array. -/
structure RawAuthor where
  name : String
deriving Repr, DecidableEq

/-- A raw provider record, with every field optional, as delivered by the
Semantic Scholar graph API (`fields` list in proxy.js 334).
`doi` stands for `p.externalIds?.DOI` and `openAccessPdfUrl` for
`p.openAccessPdf?.url`. -/
structure RawPaper where
  paperId : Option String
  title : Option String
  authors : Option (List RawAuthor)
  year : Option Int
  abstract : Option String
  tldr : Option String
  url : Option String
  doi : Option String
  openAccessPdfUrl : Option String
deriving Repr, DecidableEq

/-- Quality filter (proxy.js 424-430): title longer than 5, a non-empty author
array and an abstract longer than 50 characters. -/
def rawPassesQualityFilter (p : RawPaper) : Bool :=
  let hasTitle := match p.title with | some t => t.length > 5 | none => false
  let hasAuthors := match p.authors with | some l => l.length > 0 | none => false
  let hasAbstract := match p.abstract with | some a => a.length > 50 | none => false
  hasTitle && hasAuthors && hasAbstract

/-- `p.externalIds?.DOI ? "https://doi.org/" + DOI : null` (proxy.js 434). -/
def doiLinkOf (p : RawPaper) : Option String :=
  match p.doi with
  | some d => if d = "" then none else some ("https://doi.org/" ++ d)
  | none => none

/-- The record-to-`Paper` mapping (proxy.js 431-450). The landing `url` is
`p.url || doiLink || openAccessUrl`; the open-access PDF link is always copied
into `openAccessPdf`. -/
def mapSemanticScholarRecord (p : RawPaper) : Paper :=
  let authorList := String.intercalate ", " ((p.authors.getD []).map RawAuthor.name)
  let openAccessUrl := p.openAccessPdfUrl
  let doiLink := doiLinkOf p
  let landingPageUrl := jsOrS (jsOrS p.url doiLink) openAccessUrl
  let readerLink := match p.paperId with
    | some pid => if pid = "" then none else
        some ("https://www.semanticscholar.org/reader/" ++ pid)
    | none => none
  { title := p.title.getD ""
    authors := authorList
    year := match p.year with
      | some y => if y = 0 then "N/A" else toString y
      | none => "N/A"
    doi := jsToNull p.doi
    url := landingPageUrl
    openAccessPdf := openAccessUrl
    semanticReaderLink := readerLink
    summary := jsOrDefault p.abstract "No abstract available." }

/-- One fetched batch: filter then map (proxy.js 423-450). -/
def mapBatch (data : List RawPaper) : List Paper :=
  (data.filter rawPassesQualityFilter).map mapSemanticScholarRecord

/-! ### Primary search client loop and circuit breaker
(`searchSemanticScholar`, proxy.js 322-465) -/

/-- What one `fetch` of the paginated search endpoint produced.
`fail` covers a thrown fetch / timeout and any non-ok, non-429 status: in all
those cases `response` stays `null` in the source (proxy.js 364-380). -/
inductive SSResp where
  | ok (data : List RawPaper) (total : Option Nat)
  | rateLimited
  | fail
deriving Repr, DecidableEq

/-- Observable outcome of one `searchSemanticScholar` call: the returned
papers, the waits performed (in order, milliseconds), the number of fetches
issued and whether the global circuit breaker was set on exit. -/
structure SSResult where
  papers : List Paper
  delays : List Nat
  consumed : Nat
  tripped : Bool
deriving Repr, DecidableEq

def doneResult (papers : List Paper) : SSResult :=
  { papers := papers, delays := [], consumed := 0, tripped := false }

def withFetch (r : SSResult) : SSResult := { r with consumed := r.consumed + 1 }

def withDelay (d : Nat) (r : SSResult) : SSResult := { r with delays := d :: r.delays }

/-- `data.total && offset + data.data.length >= data.total` (proxy.js 419),
with JavaScript truthiness on `total`. -/
def totalReached (total : Option Nat) (newOffset : Nat) : Bool :=
  match total with
  | some t => t != 0 && newOffset ≥ t
  | none => false

/-- The batch loop of `searchSemanticScholar` (proxy.js 345-457), consuming
one provider response per fetch. An exhausted response list exits the loop
with the papers collected so far (in the source this is the bounded
transport-retry path running out). On HTTP 429: up to 3 backoff retries of
the same batch (`3000 * (retryCount+1)` ms); once `retryCount > 2`, return the
collected papers if any, otherwise report the breaker trip and return empty
(proxy.js 389-408). -/
def ssLoop (hardLimit : Nat) : List SSResp → List Paper → Nat → Nat → SSResult
  | resps, allPapers, offset, retryCount =>
    if allPapers.length ≥ hardLimit then doneResult allPapers
    else
      match resps with
      | [] => doneResult allPapers
      | r :: rest =>
        match r with
        | .fail =>
          if retryCount > 2 then withFetch (doneResult allPapers)
          else withFetch (withDelay 1000 (ssLoop hardLimit rest allPapers offset (retryCount + 1)))
        | .rateLimited =>
          if retryCount > 2 then
            if allPapers.length > 0 then withFetch (doneResult allPapers)
            else withFetch { papers := [], delays := [], consumed := 0, tripped := true }
          else
            withFetch (withDelay (3000 * (retryCount + 1))
              (ssLoop hardLimit rest allPapers offset (retryCount + 1)))
        | .ok data total =>
          if data.isEmpty then withFetch (doneResult allPapers)
          else
            let newPapers := allPapers ++ mapBatch data
            let newOffset := offset + data.length
            if totalReached total newOffset then withFetch (doneResult newPapers)
            else if newPapers.length < hardLimit then
              withFetch (withDelay 2000 (ssLoop hardLimit rest newPapers newOffset retryCount))
            else withFetch (doneResult newPapers)

/-- Process-wide `isSemanticScholarRateLimited` flag with its 15 s reset timer
(proxy.js 68, 396-398), modelled as an explicit deadline. -/
structure BreakerState where
  rateLimitedUntil : Option Int
deriving Repr, DecidableEq

/-- The flag is observed as set while the injected clock is before the reset
deadline. -/
def breakerActive (st : BreakerState) (now : Int) : Bool :=
  match st.rateLimitedUntil with
  | some t => now < t
  | none => false

def delayTotal (r : SSResult) : Nat := r.delays.sum

/-- `searchSemanticScholar` (proxy.js 322-465): guarded by the global circuit
breaker; on a breaker trip inside the loop the 15000 ms reset timer starts at
the moment of the trip (call time plus the waits performed until then). -/
def searchSemanticScholar (st : BreakerState) (now : Int) (resps : List SSResp)
    (maxLimit : Nat) : SSResult × BreakerState :=
  if breakerActive st now then (doneResult [], st)
  else
    let res := ssLoop (min maxLimit 500) resps [] 0 0
    (res,
     if res.tripped then { rateLimitedUntil := some (now + (delayTotal res : Int) + 15000) }
     else st)

/-! ### Aggregation over query strategies
(`runLibrarianAgent`, semantic-scholar path, proxy.js 693-771) -/

/-- One strategy's papers folded into the running deduplicated aggregate
(proxy.js 738-744): a paper is accepted only if its lowercased title is not in
`seenTitles` yet. -/
def dedupeAdd (acc : List String × List Paper) (ps : List Paper) :
    List String × List Paper :=
  ps.foldl (fun acc p =>
    let key := p.title.toLower
    if acc.1.contains key then acc else (key :: acc.1, acc.2 ++ [p])) acc

/-- The strategy loop (proxy.js 726-752): run while the target has not been
reached and strategies remain. -/
def runStrategies (target : Nat) :
    List (List Paper) → List String × List Paper → List String × List Paper
  | [], acc => acc
  | ps :: rest, acc =>
    if acc.2.length < target then runStrategies target rest (dedupeAdd acc ps)
    else acc

/-- `filters.scanDepth || 50` (proxy.js 694), with JavaScript truthiness. -/
def targetDepthOf (scanDepth : Option Nat) : Nat :=
  match scanDepth with
  | some d => if d = 0 then 50 else d
  | none => 50

/-- The semantic-scholar aggregation path of `runLibrarianAgent`
(proxy.js 693-771), parametrised by the provider responses: each strategy's
`searchSemanticScholar` result, the Google Scholar fallback result, and the
requested scan depth. Output is the deduplicated aggregate truncated to the
target. -/
def runLibrarianSemantic (strategyResponses : List (List Paper))
    (googleResponse : List Paper) (scanDepth : Option Nat) : List Paper :=
  let targetDepth := targetDepthOf scanDepth
  let acc := runStrategies targetDepth strategyResponses ([], [])
  let acc2 := if acc.2.length < targetDepth then dedupeAdd acc googleResponse else acc
  acc2.2.take targetDepth

/-! ### Helper lemmas -/

theorem mem_setDedup {w : String} :
    ∀ {l seen : List String}, w ∈ setDedup seen l ↔ w ∈ l ∧ w ∉ seen := by
  intro l
  induction l with
  | nil => simp [setDedup]
  | cons x xs ih =>
    intro seen
    by_cases hx : x ∈ seen
    · rw [setDedup, if_pos (List.elem_iff.mpr hx)]
      rw [ih]
      constructor
      · rintro ⟨hw, hws⟩
        exact ⟨List.mem_cons_of_mem _ hw, hws⟩
      · rintro ⟨hw, hws⟩
        rcases List.mem_cons.mp hw with rfl | hw
        · exact absurd hx hws
        · exact ⟨hw, hws⟩
    · rw [setDedup, if_neg (by simpa [List.elem_iff] using hx)]
      simp only [List.mem_cons, ih, List.mem_cons]
      constructor
      · rintro (rfl | ⟨hw, hws⟩)
        · exact ⟨Or.inl rfl, hx⟩
        · exact ⟨Or.inr hw, fun h => hws (Or.inr h)⟩
      · rintro ⟨rfl | hw, hws⟩
        · exact Or.inl rfl
        · by_cases hwx : w = x
          · exact Or.inl hwx
          · exact Or.inr ⟨hw, fun h => by
              rcases h with h | h
              · exact hwx h
              · exact hws h⟩

theorem setDedup_nodup : ∀ (l seen : List String), (setDedup seen l).Nodup := by
  intro l
  induction l with
  | nil => intro seen; simp [setDedup]
  | cons x xs ih =>
    intro seen
    by_cases hx : x ∈ seen
    · rw [setDedup, if_pos (List.elem_iff.mpr hx)]
      exact ih seen
    · rw [setDedup, if_neg (by simpa [List.elem_iff] using hx)]
      refine List.nodup_cons.mpr ⟨fun hmem => ?_, ih (x :: seen)⟩
      exact (mem_setDedup.mp hmem).2 (List.mem_cons_self _ _)

theorem setDedup_sublist : ∀ (l seen : List String), (setDedup seen l).Sublist l := by
  intro l
  induction l with
  | nil => intro seen; simp [setDedup]
  | cons x xs ih =>
    intro seen
    by_cases hx : x ∈ seen
    · rw [setDedup, if_pos (List.elem_iff.mpr hx)]
      exact (ih seen).trans (List.sublist_cons_self x xs)
    · rw [setDedup, if_neg (by simpa [List.elem_iff] using hx)]
      exact (ih (x :: seen)).cons₂ x

theorem dedupeAdd_inv {acc : List String × List Paper} {ps : List Paper}
    (h1 : ∀ p ∈ acc.2, p.title.toLower ∈ acc.1)
    (h2 : acc.2.Pairwise (fun p q => p.title.toLower ≠ q.title.toLower)) :
    (∀ p ∈ (dedupeAdd acc ps).2, p.title.toLower ∈ (dedupeAdd acc ps).1) ∧
    (dedupeAdd acc ps).2.Pairwise (fun p q => p.title.toLower ≠ q.title.toLower) := by
  induction ps generalizing acc with
  | nil => exact ⟨h1, h2⟩
  | cons p ps ih =>
    rw [dedupeAdd, List.foldl_cons]
    by_cases hk : p.title.toLower ∈ acc.1
    · rw [if_pos (List.elem_iff.mpr hk)]
      exact ih h1 h2
    · rw [if_neg (by simpa [List.elem_iff] using hk)]
      refine ih (fun q hq => ?_) ?_
      · rcases List.mem_append.mp hq with hq | hq
        · exact List.mem_cons_of_mem _ (h1 q hq)
        · rcases List.mem_singleton.mp hq with rfl
          exact List.mem_cons_self _ _
      · refine List.pairwise_append.mpr ⟨h2, List.pairwise_singleton _ _, ?_⟩
        intro q hq r hr
        rcases List.mem_singleton.mp hr with rfl
        intro hEq
        exact hk (hEq ▸ h1 q hq)

theorem runStrategies_inv {target : Nat} {rs : List (List Paper)}
    {acc : List String × List Paper}
    (h1 : ∀ p ∈ acc.2, p.title.toLower ∈ acc.1)
    (h2 : acc.2.Pairwise (fun p q => p.title.toLower ≠ q.title.toLower)) :
    (∀ p ∈ (runStrategies target rs acc).2, p.title.toLower ∈ (runStrategies target rs acc).1) ∧
    (runStrategies target rs acc).2.Pairwise (fun p q => p.title.toLower ≠ q.title.toLower) := by
  induction rs generalizing acc with
  | nil => exact ⟨h1, h2⟩
  | cons ps rest ih =>
    rw [runStrategies]
    by_cases hlen : acc.2.length < target
    · rw [if_pos hlen]
      obtain ⟨g1, g2⟩ := @dedupeAdd_inv acc ps h1 h2
      exact ih g1 g2
    · rw [if_neg hlen]
      exact ⟨h1, h2⟩

/-- C1: for every topic (abstracted to the per-strategy provider responses),
scanDepth target (positive or absent) and sequence of provider responses, the
paper list returned by the semantic-scholar aggregation path of
`runLibrarianAgent` contains no two Papers with equal lowercased titles and
has length at most `scanDepth` (defaulting to 50 when `scanDepth` is absent). -/
theorem runLibrarianSemantic_dedup_and_capped
    (strategyResponses : List (List Paper)) (googleResponse : List Paper)
    (scanDepth : Option Nat) (h : scanDepth ≠ some 0) :
    (runLibrarianSemantic strategyResponses googleResponse scanDepth).Pairwise
      (fun p q => p.title.toLower ≠ q.title.toLower) ∧
    (runLibrarianSemantic strategyResponses googleResponse scanDepth).length ≤
      scanDepth.getD 50 := by
  have htd : targetDepthOf scanDepth = scanDepth.getD 50 := by
    rcases scanDepth with _ | d
    · rfl
    · have hd : d ≠ 0 := fun h0 => h (by rw [h0])
      simp [targetDepthOf, hd]
  have hsem : runLibrarianSemantic strategyResponses googleResponse scanDepth =
      (if (runStrategies (scanDepth.getD 50) strategyResponses ([], [])).2.length <
            scanDepth.getD 50
       then dedupeAdd (runStrategies (scanDepth.getD 50) strategyResponses ([], []))
              googleResponse
       else runStrategies (scanDepth.getD 50) strategyResponses ([], [])).2.take
        (scanDepth.getD 50) := by
    simp only [runLibrarianSemantic, htd]
  obtain ⟨a1, a2⟩ := @runStrategies_inv (scanDepth.getD 50) strategyResponses ([], [])
    (by intro p hp; cases hp) List.Pairwise.nil
  rw [hsem]
  by_cases hlen : (runStrategies (scanDepth.getD 50) strategyResponses ([], [])).2.length <
      scanDepth.getD 50
  · rw [if_pos hlen]
    obtain ⟨_, b2⟩ := @dedupeAdd_inv (runStrategies (scanDepth.getD 50) strategyResponses ([], [])) googleResponse a1 a2
    exact ⟨b2.sublist (List.take_sublist _ _), List.length_take_le _ _⟩
  · rw [if_neg hlen]
    exact ⟨a2.sublist (List.take_sublist _ _), List.length_take_le _ _⟩

/-- C1 witness: concrete run with a duplicate title across strategies and a
scan depth of 2. -/
theorem runLibrarianSemantic_dedup_and_capped_witness :
    (some 2 : Option Nat) ≠ some 0 ∧
    ((runLibrarianSemantic
        [[{ title := "Alpha", authors := "", year := "", doi := none, url := none,
            openAccessPdf := none, semanticReaderLink := none, summary := "" }],
         [{ title := "ALPHA", authors := "", year := "", doi := none, url := none,
            openAccessPdf := none, semanticReaderLink := none, summary := "" },
          { title := "Beta", authors := "", year := "", doi := none, url := none,
            openAccessPdf := none, semanticReaderLink := none, summary := "" }]]
        [] (some 2)).Pairwise (fun p q => p.title.toLower ≠ q.title.toLower) ∧
      (runLibrarianSemantic
        [[{ title := "Alpha", authors := "", year := "", doi := none, url := none,
            openAccessPdf := none, semanticReaderLink := none, summary := "" }],
         [{ title := "ALPHA", authors := "", year := "", doi := none, url := none,
            openAccessPdf := none, semanticReaderLink := none, summary := "" },
          { title := "Beta", authors := "", year := "", doi := none, url := none,
            openAccessPdf := none, semanticReaderLink := none, summary := "" }]]
        [] (some 2)).length ≤ (some 2 : Option Nat).getD 50) :=
  ⟨by decide, runLibrarianSemantic_dedup_and_capped _ _ _ (by decide)⟩

/-- C10 counterexample: the configured stop-word set itself contains
"impact", so on the topic "Impact of AI on cancer" the basic extractor yields
only "cancer" — not the claimed set containing "impact" and "cancer". -/
theorem extractKeywordsBasic_impact_counterexample :
    extractKeywordsBasic "Impact of AI on cancer" = "cancer" ∧
    extractKeywordsBasicWords "Impact of AI on cancer" = ["cancer"] ∧
    "impact" ∈ stopWords := by
  refine ⟨by decide, by decide, by decide⟩

/-- C10 (amended): the basic extractor lowercases, strips punctuation, splits
on whitespace, removes every stop-word and every token of length ≤ 2, and
deduplicates preserving first occurrence — its output tokens are exactly the
kept tokens (no stop-words, all longer than 2 characters, no duplicates, in
first-occurrence order); for the topic "Impact of AI on cancer" it yields
exactly the token "cancer" ("impact" is itself a configured stop-word). -/
theorem extractKeywordsBasic_spec (text : String) :
    (∀ w ∈ extractKeywordsBasicWords text, w ∉ stopWords ∧ w.length > 2) ∧
    (extractKeywordsBasicWords text).Nodup ∧
    (extractKeywordsBasicWords text).Sublist (keptTokens text) ∧
    (∀ w ∈ keptTokens text, w ∈ extractKeywordsBasicWords text) ∧
    extractKeywordsBasic "Impact of AI on cancer" = "cancer" := by
  refine ⟨?_, setDedup_nodup _ _, setDedup_sublist _ _, ?_, by decide⟩
  · intro w hw
    have hk : w ∈ keptTokens text := (mem_setDedup.mp hw).1
    have := List.mem_filter.mp hk
    have hcond := this.2
    simp only [Bool.and_eq_true, Bool.not_eq_true', decide_eq_true_eq] at hcond
    exact ⟨by simpa [List.elem_iff] using hcond.1, hcond.2⟩
  · intro w hw
    exact mem_setDedup.mpr ⟨hw, by simp⟩

/-- Spec-side helper for C3: the first present (`some`) element of a list of
optional strings. -/
def firstDefined : List (Option String) → Option String
  | [] => none
  | some s :: _ => some s
  | none :: rest => firstDefined rest

theorem appendDoi_ne_empty (d : String) : ("https://doi.org/" ++ d) ≠ "" := by
  intro h
  have hdata : ("https://doi.org/" ++ d).data = ([] : List Char) := by rw [h]
  rw [String.data_append] at hdata
  exact absurd (List.append_eq_nil.mp hdata).1 (by decide)

/-- C3: for every raw provider record (whose optional URL/DOI fields, when
present, are non-empty strings), the mapped Paper's landing `url` is the first
defined of canonical URL, DOI resolver link, open-access PDF URL — and the
open-access PDF URL is always additionally retained in the separate
`openAccessPdf` field. -/
theorem mapSemanticScholarRecord_url_priority (p : RawPaper)
    (hu : p.url ≠ some "") (hd : p.doi ≠ some "") (ho : p.openAccessPdfUrl ≠ some "") :
    (mapSemanticScholarRecord p).url =
      firstDefined [p.url, doiLinkOf p, p.openAccessPdfUrl] ∧
    (mapSemanticScholarRecord p).openAccessPdf = p.openAccessPdfUrl := by
  refine ⟨?_, rfl⟩
  rcases p with ⟨pid, t, au, y, ab, tl, u, d, oa⟩
  simp only [RawPaper.url] at hu
  simp only [RawPaper.doi] at hd
  simp only [RawPaper.openAccessPdfUrl] at ho
  rcases u with _ | u <;> rcases d with _ | d <;> rcases oa with _ | oa <;>
    simp_all [mapSemanticScholarRecord, doiLinkOf, jsOrS, firstDefined,
      appendDoi_ne_empty]

/-- C3 witness: a record with no canonical URL, a DOI and an open-access PDF
maps to the DOI resolver link while the PDF link is kept separately. -/
theorem mapSemanticScholarRecord_url_priority_witness :
    ((⟨none, some "Sample title", some [⟨"A"⟩], some 2020, some "abstract",
        none, none, some "10.1/x", some "https://x.org/a.pdf"⟩ : RawPaper).url ≠ some "" ∧
     (⟨none, some "Sample title", some [⟨"A"⟩], some 2020, some "abstract",
        none, none, some "10.1/x", some "https://x.org/a.pdf"⟩ : RawPaper).doi ≠ some "" ∧
     (⟨none, some "Sample title", some [⟨"A"⟩], some 2020, some "abstract",
        none, none, some "10.1/x", some "https://x.org/a.pdf"⟩ : RawPaper).openAccessPdfUrl
        ≠ some "") ∧
    ((mapSemanticScholarRecord
        ⟨none, some "Sample title", some [⟨"A"⟩], some 2020, some "abstract",
         none, none, some "10.1/x", some "https://x.org/a.pdf"⟩).url =
      firstDefined [none, doiLinkOf
        ⟨none, some "Sample title", some [⟨"A"⟩], some 2020, some "abstract",
         none, none, some "10.1/x", some "https://x.org/a.pdf"⟩,
        some "https://x.org/a.pdf"] ∧
     (mapSemanticScholarRecord
        ⟨none, some "Sample title", some [⟨"A"⟩], some 2020, some "abstract",
         none, none, some "10.1/x", some "https://x.org/a.pdf"⟩).openAccessPdf =
      some "https://x.org/a.pdf") :=
  ⟨⟨by decide, by decide, by decide⟩,
   mapSemanticScholarRecord_url_priority _ (by decide) (by decide) (by decide)⟩

/-- C2: with the breaker inactive and a provider answering HTTP 429 on four
consecutive fetches of a fresh query: the client performs exactly 3 backoff
retries with waits `3000·(retryCount+1)` (then stops consuming responses),
returns empty and trips the circuit breaker whose reset timer expires 15000 ms
after the trip; while the clock is before that deadline every call returns
empty without issuing any fetch, and at the deadline the breaker no longer
blocks. If papers had already been collected for the query, retry exhaustion
instead returns them without tripping the breaker. -/
theorem searchSemanticScholar_429_retries_and_breaker
    (st : BreakerState) (now : Int) (rest : List SSResp) (maxLimit : Nat)
    (hactive : breakerActive st now = false) (hlim : 0 < maxLimit) :
    (searchSemanticScholar st now
        ([.rateLimited, .rateLimited, .rateLimited, .rateLimited] ++ rest) maxLimit).1 =
      { papers := [], delays := [3000, 6000, 9000], consumed := 4, tripped := true } ∧
    (searchSemanticScholar st now
        ([.rateLimited, .rateLimited, .rateLimited, .rateLimited] ++ rest) maxLimit).2 =
      { rateLimitedUntil := some (now + 18000 + 15000) } ∧
    (∀ (st2 : BreakerState), st2.rateLimitedUntil = some (now + 18000 + 15000) →
      ∀ (now2 : Int) (resps2 : List SSResp) (maxLimit2 : Nat),
        now2 < now + 18000 + 15000 →
          searchSemanticScholar st2 now2 resps2 maxLimit2 = (doneResult [], st2)) ∧
    (∀ (st3 : BreakerState), st3.rateLimitedUntil = some (now + 18000 + 15000) →
      ∀ (now3 : Int), now + 18000 + 15000 ≤ now3 → breakerActive st3 now3 = false) ∧
    (∀ (hardLimit offset : Nat) (papers : List Paper) (rest2 : List SSResp),
      papers ≠ [] → papers.length < hardLimit →
        ssLoop hardLimit
          ([.rateLimited, .rateLimited, .rateLimited, .rateLimited] ++ rest2)
          papers offset 0 =
        { papers := papers, delays := [3000, 6000, 9000], consumed := 4,
          tripped := false }) := by
  have hmin : ¬ (0 ≥ min maxLimit 500) := by
    simp only [ge_iff_le, Nat.le_zero]
    omega
  refine ⟨?_, ?_, ?_, ?_, ?_⟩
  · simp [searchSemanticScholar, hactive, ssLoop, hmin, withFetch, withDelay, doneResult]
  · simp [searchSemanticScholar, hactive, ssLoop, hmin, withFetch, withDelay, doneResult,
      delayTotal]
  · intro st2 h2 now2 resps2 maxLimit2 hlt
    simp [searchSemanticScholar, breakerActive, h2, hlt]
  · intro st3 h3 now3 hge
    simp [breakerActive, h3]
    omega
  · intro hardLimit offset papers rest2 hne hlt
    have hnot : ¬ (papers.length ≥ hardLimit) := Nat.not_le.mpr hlt
    have hpos : papers.length > 0 := List.length_pos.mpr hne
    simp [ssLoop, hnot, hpos, withFetch, withDelay, doneResult]

/-- C2 witness: concrete instantiation with a fresh breaker, clock 0 and
target 10. -/
theorem searchSemanticScholar_429_retries_and_breaker_witness :
    (breakerActive ⟨none⟩ 0 = false ∧ 0 < 10) ∧
    ((searchSemanticScholar ⟨none⟩ 0
        ([.rateLimited, .rateLimited, .rateLimited, .rateLimited] ++ []) 10).1 =
      { papers := [], delays := [3000, 6000, 9000], consumed := 4, tripped := true } ∧
     (searchSemanticScholar ⟨none⟩ 0
        ([.rateLimited, .rateLimited, .rateLimited, .rateLimited] ++ []) 10).2 =
      { rateLimitedUntil := some (0 + 18000 + 15000) } ∧
     (∀ (st2 : BreakerState), st2.rateLimitedUntil = some (0 + 18000 + 15000) →
       ∀ (now2 : Int) (resps2 : List SSResp) (maxLimit2 : Nat),
         now2 < 0 + 18000 + 15000 →
           searchSemanticScholar st2 now2 resps2 maxLimit2 = (doneResult [], st2)) ∧
     (∀ (st3 : BreakerState), st3.rateLimitedUntil = some (0 + 18000 + 15000) →
       ∀ (now3 : Int), 0 + 18000 + 15000 ≤ now3 → breakerActive st3 now3 = false) ∧
     (∀ (hardLimit offset : Nat) (papers : List Paper) (rest2 : List SSResp),
       papers ≠ [] → papers.length < hardLimit →
         ssLoop hardLimit
           ([.rateLimited, .rateLimited, .rateLimited, .rateLimited] ++ rest2)
           papers offset 0 =
         { papers := papers, delays := [3000, 6000, 9000], consumed := 4,
           tripped := false })) :=
  ⟨⟨by decide, by decide⟩,
   searchSemanticScholar_429_retries_and_breaker ⟨none⟩ 0 [] 10 (by decide) (by decide)⟩

/-! ### Abstract enrichment (`fetchAbstractFromUrl`, proxy.js 817-1004)

The four pure cascade stages are regex scans in the source; here each is an
explicit leftmost-match scanner. Scanners whose recursion is not structural
take a fuel argument instantiated with the input length (every iteration
consumes at least one character, so this fuel is never exhausted). -/

/-- Scan for a case-insensitive literal, returning the input remaining after
its first occurrence. -/
def findAfterLitCI (pat : List Char) : List Char → Option (List Char)
  | [] => if pat.isEmpty then some [] else none
  | c :: rest =>
    if leadsWithCI pat (c :: rest) then some ((c :: rest).drop pat.length)
    else findAfterLitCI pat rest

/-- Lazy capture up to the first occurrence of a case-insensitive closing
literal (the `([\s\S]*?)close` idiom): returns the capture and the rest after
the closing literal. -/
def captureToCloseCI (closePat : List Char) : List Char → Option (List Char × List Char)
  | [] => none
  | c :: rest =>
    if leadsWithCI closePat (c :: rest) then some ([], (c :: rest).drop closePat.length)
    else (captureToCloseCI closePat rest).map fun p => (c :: p.1, p.2)

/-- All `open…close` blocks of the input, in order, whole match included —
the semantics of a global lazy block regex such as
`/<script type="application\/ld\+json">([\s\S]*?)<\/script>/gmi`. -/
def extractScriptBlocks (openPat closePat : List Char) : Nat → List Char → List (List Char)
  | 0, _ => []
  | fuel + 1, s =>
    match findAfterLitCI openPat s with
    | none => []
    | some afterOpen =>
      match captureToCloseCI closePat afterOpen with
      | none => []
      | some (content, rest) =>
        (openPat ++ content ++ closePat) :: extractScriptBlocks openPat closePat fuel rest

/-- Rest of the input after the first `>` (the `[^>]*>` tail of a tag). -/
def tagEndAfter : List Char → Option (List Char)
  | [] => none
  | c :: rest => if c = '>' then some rest else tagEndAfter rest

/-- Given the characters after a `<`, the rest after a full `<[^>]+>` tag:
at least one non-`>` character followed by the first `>`. -/
def tagEnd : List Char → Option (List Char)
  | [] => none
  | c :: rest => if c = '>' then none else tagEndAfter rest

/-- Global replacement of every `<[^>]+>` tag by `repl` (the source uses
`''` for JSON-LD blocks and `' '` for class scraping). -/
def stripTagsWithF (repl : List Char) : Nat → List Char → List Char
  | 0, s => s
  | _ + 1, [] => []
  | fuel + 1, c :: rest =>
    if c = '<' then
      match tagEnd rest with
      | some rest2 => repl ++ stripTagsWithF repl fuel rest2
      | none => c :: stripTagsWithF repl fuel rest
    else c :: stripTagsWithF repl fuel rest

/-- `.join(sep)` on character lists. -/
def joinSep (sep : List Char) : List (List Char) → List Char
  | [] => []
  | [x] => x
  | x :: y :: rest => x ++ sep ++ joinSep sep (y :: rest)

/-- At the current position, consume a case-insensitive `"key"` (quote, key,
quote), returning the rest. -/
def quotedKeyAt (key : List Char) (s : List Char) : Option (List Char) :=
  match s with
  | '"' :: rest =>
    if leadsWithCI key rest then
      match rest.drop key.length with
      | '"' :: rest2 => some rest2
      | _ => none
    else none
  | _ => none

/-- Consume `\s*:\s*"([^"]+)"`, returning the non-empty capture. -/
def valueAfterColon (s : List Char) : Option (List Char) :=
  match matchWs0 s with
  | ':' :: rest =>
    match matchWs0 rest with
    | '"' :: rest2 =>
      match captureUntil '"' rest2 with
      | some (cap, _) => if cap.isEmpty then none else some cap
      | none => none
    | _ => none
  | _ => none

/-- One position of the `"(description|abstract)"\s*:\s*"([^"]+)"` scan
(proxy.js 907). -/
def descAbstractMatcher (s : List Char) : Option (List Char) :=
  match quotedKeyAt "description".data s with
  | some rest => valueAfterColon rest
  | none =>
    match quotedKeyAt "abstract".data s with
    | some rest => valueAfterColon rest
    | none => none

def jsonLdOpenTag : List Char := "<script type=\"application/ld+json\">".data

def jsonLdCloseTag : List Char := "</script>".data

/-- The concatenated, tag-stripped text of all JSON-LD script blocks
(`jsonLdData`, proxy.js 901-905); `none` when no block matches (in the source
`jsonLdCheck` is then `null` and the stage is skipped). -/
def jsonLdData (html : String) : Option (List Char) :=
  let blocks := extractScriptBlocks jsonLdOpenTag jsonLdCloseTag html.data.length html.data
  if blocks.isEmpty then none
  else some (joinSep "\n\n".data (blocks.map fun b => stripTagsWithF [] b.length b))

/-- The raw description/abstract value found in the JSON-LD data, before the
length check (`abstractMatch[2]`, proxy.js 907). -/
def jsonLdRawMatch (html : String) : Option String :=
  (jsonLdData html).bind fun d => (scanFirst descAbstractMatcher d).map String.mk

/-- Cascade stage 2 (proxy.js 900-912): the JSON-LD value, accepted only when
strictly longer than 100 characters. -/
def jsonLdStage (html : String) : Option String :=
  match jsonLdRawMatch html with
  | some v => if v.length > 100 then some v else none
  | none => none

/-- Either quote character of the `["']` classes. -/
def isQuote (c : Char) : Bool := c == '"' || c == '\''

/-- Capture `([^"']+)` followed by a closing quote. -/
def captureNonQuote (s : List Char) : Option (List Char) :=
  let cap := s.takeWhile fun c => !isQuote c
  if cap.isEmpty then none
  else
    match s.drop cap.length with
    | c :: _ => if isQuote c then some cap else none
    | [] => none

def metaKeywords : List (List Char) :=
  ["description".data, "og:description".data, "twitter:description".data]

/-- Consume one meta keyword followed by a closing quote. -/
def matchKwQ (s kw : List Char) : Option (List Char) :=
  if leadsWithCI kw s then
    match s.drop kw.length with
    | q :: rest => if isQuote q then some rest else none
    | [] => none
  else none

/-- One position of the meta-description regex (proxy.js 917):
`<meta\s+(?:name|property)=["'](?:description|og:description|twitter:description)["']\s+content=["']([^"']+)["']`. -/
def metaMatcher (s : List Char) : Option (List Char) :=
  match matchLitCI "<meta".data s with
  | none => none
  | some s1 =>
    match matchWs1 s1 with
    | none => none
    | some s2 =>
      match (match matchLitCI "name".data s2 with
             | some r => some r
             | none => matchLitCI "property".data s2) with
      | none => none
      | some s3 =>
        match s3 with
        | '=' :: q :: s5 =>
          if isQuote q then
            match metaKeywords.findSome? (matchKwQ s5) with
            | none => none
            | some s6 =>
              match matchWs1 s6 with
              | none => none
              | some s7 =>
                match matchLitCI "content=".data s7 with
                | none => none
                | some s8 =>
                  match s8 with
                  | q2 :: s9 => if isQuote q2 then captureNonQuote s9 else none
                  | [] => none
          else none
        | _ => none

/-- Cascade stage 3 (proxy.js 914-922): meta description-family content,
accepted only when strictly longer than 100 characters. -/
def metaStage (html : String) : Option String :=
  match scanFirst metaMatcher html.data with
  | some cap => if cap.length > 100 then some (String.mk cap) else none
  | none => none

/-- `((?:[^"\\]|\\.)*)"`: scan a JSON string body up to its unescaped
closing quote; returns the body (escapes intact) and the rest after the
quote. -/
def jsonStrScan : List Char → Option (List Char × List Char)
  | [] => none
  | '"' :: rest => some ([], rest)
  | '\\' :: c :: rest => (jsonStrScan rest).map fun p => ('\\' :: c :: p.1, p.2)
  | c :: rest => (jsonStrScan rest).map fun p => (c :: p.1, p.2)

/-- `.replace(/\\"/g, '"')`. -/
def replaceEscQuote : List Char → List Char
  | '\\' :: '"' :: rest => '"' :: replaceEscQuote rest
  | c :: rest => c :: replaceEscQuote rest
  | [] => []

/-- `.replace(/\\n/g, ' ')`. -/
def replaceEscN : List Char → List Char
  | '\\' :: 'n' :: rest => ' ' :: replaceEscN rest
  | c :: rest => c :: replaceEscN rest
  | [] => []

/-- `.replace(/\\/g, '')`. -/
def removeBackslashes (s : List Char) : List Char :=
  s.filter fun c => c != '\\'

/-- One position of the hydration-JSON regex (proxy.js 928):
`"abstract"\s*:\s*"((?:[^"\\]|\\.)*)"`. -/
def rawJsonMatcher (s : List Char) : Option (List Char) :=
  match quotedKeyAt "abstract".data s with
  | some rest =>
    match matchWs0 rest with
    | ':' :: rest2 =>
      match matchWs0 rest2 with
      | '"' :: rest3 => (jsonStrScan rest3).map Prod.fst
      | _ => none
    | _ => none
  | none => none

/-- Cascade stage 4 (proxy.js 924-937): unescaped hydration-JSON abstract,
accepted when non-empty, strictly longer than 100 characters and free of the
sentinel marker. -/
def rawJsonStage (html : String) : Option String :=
  match scanFirst rawJsonMatcher html.data with
  | some cap =>
    if cap.isEmpty then none
    else
      let rawAbstract := removeBackslashes (replaceEscN (replaceEscQuote cap))
      if rawAbstract.length > 100 && !containsSub "NO_ABSTRACT".data rawAbstract
      then some (String.mk rawAbstract) else none
  | none => none

/-- `\s+` runs collapsed to single spaces (`.replace(/\s+/g, " ")`). -/
def collapseWsAux (prevWs : Bool) : List Char → List Char
  | [] => []
  | c :: rest =>
    if c.isWhitespace then
      if prevWs then collapseWsAux true rest else ' ' :: collapseWsAux true rest
    else c :: collapseWsAux false rest

def collapseWs (s : List Char) : List Char := collapseWsAux false s

/-- JavaScript `String.prototype.trim` on character lists. -/
def trimChars (s : List Char) : List Char :=
  ((s.dropWhile Char.isWhitespace).reverse.dropWhile Char.isWhitespace).reverse

/-- JavaScript `trim` on `String`s (kernel-computable). -/
def jsTrim (s : String) : String := String.mk (trimChars s.data)

/-- The attribute tail of the class regex, after a `class=` inside the tag:
`["'][^"']*CLASS[^"']*["'][^>]*>([\s\S]*?)<\/div>`. -/
def divClassAttr (classNm s : List Char) : Option (List Char) :=
  match s with
  | q :: rest =>
    if isQuote q then
      let span := rest.takeWhile fun c => !isQuote c
      if containsSubCI classNm span then
        match rest.drop span.length with
        | q2 :: rest2 =>
          if isQuote q2 then
            match tagEndAfter rest2 with
            | some content => (captureToCloseCI "</div>".data content).map Prod.fst
            | none => none
          else none
        | [] => none
      else none
    else none
  | [] => none

/-- Scan the characters after `<div` for a `class=` attribute (which the
`[^>]*` in the pattern confines to before the tag's first `>`) whose quoted
value contains the class name; on success capture the tag content up to the
first `</div>`. -/
def divClassScan (classNm : List Char) : List Char → Option (List Char)
  | [] => none
  | c :: rest =>
    match
      (if leadsWithCI "class=".data (c :: rest)
       then divClassAttr classNm ((c :: rest).drop 6) else none) with
    | some content => some content
    | none => if c = '>' then none else divClassScan classNm rest

/-- One position of the div-class regex (proxy.js 946):
`<div[^>]*class=["'][^"']*CLASS[^"']*["'][^>]*>([\s\S]*?)<\/div>`. -/
def divClassMatcher (classNm : List Char) (s : List Char) : Option (List Char) :=
  match matchLitCI "<div".data s with
  | none => none
  | some afterDiv => divClassScan classNm afterDiv

/-- `specificClasses` (proxy.js 941). -/
def specificClasses : List String :=
  ["tldr-abstract-replacement", "paper-detail-page__abstract", "abstract-text"]

/-- Cascade stage 5 loop (proxy.js 943-958): first class whose tag-stripped,
whitespace-collapsed, trimmed content is longer than 50 characters and not a
TLDR stub. -/
def classStageGo (html : String) : List String → Option String
  | [] => none
  | cl :: restClasses =>
    match scanFirst (divClassMatcher cl.data) html.data with
    | some content =>
      if content.isEmpty then classStageGo html restClasses
      else
        let rawText := trimChars (collapseWs (stripTagsWithF [' '] content.length content))
        if rawText.length > 50 && !containsSub "tldr".data (rawText.map Char.toLower)
        then some (String.mk rawText)
        else classStageGo html restClasses
    | none => classStageGo html restClasses

def classStage (html : String) : Option String :=
  classStageGo html specificClasses

/-- Removal of `<open\b[^>]*>[\s\S]*?close` blocks (script/style stripping for
the LLM stage, proxy.js 961-963). -/
def removeTagBlocksF (openLit closeLit : List Char) : Nat → List Char → List Char
  | 0, s => s
  | _ + 1, [] => []
  | fuel + 1, c :: rest =>
    if leadsWithCI openLit (c :: rest) then
      if (match (c :: rest).drop openLit.length with
          | a :: _ => isWordChar a
          | [] => false) then
        c :: removeTagBlocksF openLit closeLit fuel rest
      else
        match tagEndAfter ((c :: rest).drop openLit.length) with
        | some afterGt =>
          match captureToCloseCI closeLit afterGt with
          | some (_, rest2) => removeTagBlocksF openLit closeLit fuel rest2
          | none => c :: removeTagBlocksF openLit closeLit fuel rest
        | none => c :: removeTagBlocksF openLit closeLit fuel rest
    else c :: removeTagBlocksF openLit closeLit fuel rest

/-- Removal of `open[\s\S]*?close` delimited blocks (HTML comments,
proxy.js 964). -/
def removeDelimF (openLit closeLit : List Char) : Nat → List Char → List Char
  | 0, s => s
  | _ + 1, [] => []
  | fuel + 1, c :: rest =>
    if leadsWithCI openLit (c :: rest) then
      match captureToCloseCI closeLit ((c :: rest).drop openLit.length) with
      | some (_, rest2) => removeDelimF openLit closeLit fuel rest2
      | none => c :: removeDelimF openLit closeLit fuel rest
    else c :: removeDelimF openLit closeLit fuel rest

/-- `cleanedHtml` fed to the LLM stage (proxy.js 960-965): scripts, styles
and comments removed, truncated to 20000 characters. -/
def cleanedHtmlOf (htmlText : String) : String :=
  let s1 := removeTagBlocksF "<script".data "</script>".data htmlText.data.length htmlText.data
  let s2 := removeTagBlocksF "<style".data "</style>".data s1.length s1
  let s3 := removeDelimF "<!--".data "-->".data s2.length s2
  String.mk (s3.take 20000)

/-- The ordered pure cascade plus the LLM last resort (proxy.js 900-999):
first satisfied stage wins; the LLM collaborator is an oracle from the
cleaned HTML to its answer, trimmed on return. -/
def cascadePure (htmlText : String) (llm : String → String) : String :=
  match jsonLdStage htmlText with
  | some v => v
  | none =>
    match metaStage htmlText with
    | some v => v
    | none =>
      match rawJsonStage htmlText with
      | some v => v
      | none =>
        match classStage htmlText with
        | some v => v
        | none => jsTrim (llm (cleanedHtmlOf htmlText))

/-- A fetched page as observed through the gateway: forwarded status and
body text. -/
structure FetchPage where
  status : Nat
  body : String
deriving Repr, DecidableEq

/-- `Response.ok`: status in the 200-299 range. -/
def pageOk (p : FetchPage) : Bool := 200 ≤ p.status && p.status ≤ 299

/-- Bot-block content markers (proxy.js 861-866). -/
def blockedMarkers : List String :=
  ["Please contact our support team", "Reference number:", "Cloudflare Ray ID",
   "challenge-container", "JavaScript is disabled", "verify that you're not a robot"]

/-- `isBlocked` (proxy.js 861-867): content markers or status in
{202, 403, 504, 401, 429}. -/
def isBlockedResp (page : FetchPage) : Bool :=
  blockedMarkers.any (fun m => strContains page.body m) ||
    page.status == 202 || page.status == 403 || page.status == 504 ||
    page.status == 401 || page.status == 429

/-- The post-fetch body of `fetchAbstractFromUrl` (proxy.js 840-999): an
early 202 abort, the block check with its single Google-cache retry
(`cachePage`; `none` models a thrown cache fetch), then the cascade. -/
def fetchAbstractCore (page : FetchPage) (cachePage : Option FetchPage)
    (llm : String → String) : String :=
  if page.status == 202 then "NO_ABSTRACT_FOUND"
  else if isBlockedResp page then
    match cachePage with
    | some cp =>
      if pageOk cp then
        if cp.body.length > 2000 && !strContains cp.body "404. That’s an error"
        then cascadePure cp.body llm
        else "NO_ABSTRACT_FOUND"
      else "NO_ABSTRACT_FOUND"
    | none => "NO_ABSTRACT_FOUND"
  else if !pageOk page then "NO_ABSTRACT_FOUND"
  else cascadePure page.body llm

/-- The module-level `fetchedUrlsCache` map of per-URL last-fetch timestamps
(proxy.js 817). -/
structure UrlCooldownCache where
  entries : List (String × Int)
deriving Repr, DecidableEq

def cacheLookup (c : UrlCooldownCache) (url : String) : Option Int :=
  (c.entries.find? fun e => e.1 == url).map Prod.snd

def cacheSet (c : UrlCooldownCache) (url : String) (t : Int) : UrlCooldownCache :=
  ⟨(url, t) :: c.entries.filter fun e => e.1 != url⟩

/-- The cooldown guard (proxy.js 820-828): a recorded fetch for the URL less
than 30000 ms ago short-circuits the call. -/
def cooldownActive (c : UrlCooldownCache) (url : String) (now : Int) : Bool :=
  match cacheLookup c url with
  | some lastFetch => now - lastFetch < 30000
  | none => false

/-- `fetchAbstractFromUrl` (proxy.js 819-1004) as a state transformer over the
cooldown cache: returns the abstract text, the updated cache, and whether a
network fetch was performed. The timestamp is recorded only on calls that
proceed past the guard, exactly as in the source (proxy.js 829). -/
def fetchAbstractFromUrl (cache : UrlCooldownCache) (targetUrl : String) (now : Int)
    (page : FetchPage) (cachePage : Option FetchPage) (llm : String → String) :
    String × UrlCooldownCache × Bool :=
  if cooldownActive cache targetUrl now then ("NO_ABSTRACT_FOUND", cache, false)
  else (fetchAbstractCore page cachePage llm, cacheSet cache targetUrl now, true)

/-! ### C4 / C5 theorems -/

theorem jsonLdStage_length {html : String} {v : String}
    (h : jsonLdStage html = some v) : v.length > 100 := by
  unfold jsonLdStage at h
  cases hr : jsonLdRawMatch html with
  | none => rw [hr] at h; cases h
  | some w =>
    rw [hr] at h
    dsimp only at h
    by_cases hw : w.length > 100
    · rw [if_pos hw] at h; cases h; exact hw
    · rw [if_neg hw] at h; cases h

theorem metaStage_length {html : String} {v : String}
    (h : metaStage html = some v) : v.length > 100 := by
  unfold metaStage at h
  cases hr : scanFirst metaMatcher html.data with
  | none => rw [hr] at h; cases h
  | some cap =>
    rw [hr] at h
    dsimp only at h
    by_cases hc : cap.length > 100
    · rw [if_pos hc] at h; cases h; exact hc
    · rw [if_neg hc] at h; cases h

theorem rawJsonStage_length {html : String} {v : String}
    (h : rawJsonStage html = some v) : v.length > 100 := by
  unfold rawJsonStage at h
  cases hr : scanFirst rawJsonMatcher html.data with
  | none => rw [hr] at h; cases h
  | some cap =>
    rw [hr] at h
    dsimp only at h
    by_cases he : cap.isEmpty
    · rw [if_pos he] at h; cases h
    · rw [if_neg he] at h
      set ra := removeBackslashes (replaceEscN (replaceEscQuote cap)) with hra
      by_cases hc : (ra.length > 100 && !containsSub "NO_ABSTRACT".data ra) = true
      · rw [if_pos hc] at h
        cases h
        have := (Bool.and_eq_true _ _).mp hc
        simpa using this.1
      · rw [if_neg hc] at h; cases h

theorem classStageGo_length {html : String} {v : String} :
    ∀ {cls : List String}, classStageGo html cls = some v → v.length > 50 := by
  intro cls
  induction cls with
  | nil => intro h; cases h
  | cons cl rest ih =>
    intro h
    unfold classStageGo at h
    cases hr : scanFirst (divClassMatcher cl.data) html.data with
    | none => rw [hr] at h; exact ih h
    | some content =>
      rw [hr] at h
      dsimp only at h
      by_cases he : content.isEmpty
      · rw [if_pos he] at h; exact ih h
      · rw [if_neg he] at h
        set rt := trimChars (collapseWs (stripTagsWithF [' '] content.length content)) with hrt
        by_cases hc : (rt.length > 50 && !containsSub "tldr".data (rt.map Char.toLower)) = true
        · rw [if_pos hc] at h
          cases h
          have := (Bool.and_eq_true _ _).mp hc
          simpa using this.1
        · rw [if_neg hc] at h; exact ih h

theorem classStage_length {html : String} {v : String}
    (h : classStage html = some v) : v.length > 50 :=
  classStageGo_length h

/-- C4 (amended): the cascade returns the JSON-LD description/abstract value
whenever one of length strictly greater than 100 characters is found, even if
a later stage would also match; and it returns the `NO_ABSTRACT_FOUND`
sentinel only when every pure stage failed and the LLM last resort itself
produced the sentinel. -/
theorem cascade_jsonld_priority_and_sentinel (html : String) (llm : String → String) :
    (∀ v, jsonLdRawMatch html = some v → v.length > 100 → cascadePure html llm = v) ∧
    (cascadePure html llm = "NO_ABSTRACT_FOUND" →
      jsonLdStage html = none ∧ metaStage html = none ∧ rawJsonStage html = none ∧
      classStage html = none ∧
      jsTrim (llm (cleanedHtmlOf html)) = "NO_ABSTRACT_FOUND") := by
  constructor
  · intro v hv hlen
    unfold cascadePure jsonLdStage
    rw [hv]
    simp [hlen]
  · intro hres
    unfold cascadePure at hres
    cases hj : jsonLdStage html with
    | some v =>
      rw [hj] at hres
      simp only at hres
      have hl := jsonLdStage_length hj
      rw [hres] at hl
      exact absurd hl (by decide)
    | none =>
      rw [hj] at hres
      simp only at hres
      cases hm : metaStage html with
      | some v =>
        rw [hm] at hres
        simp only at hres
        have hl := metaStage_length hm
        rw [hres] at hl
        exact absurd hl (by decide)
      | none =>
        rw [hm] at hres
        simp only at hres
        cases hrj : rawJsonStage html with
        | some v =>
          rw [hrj] at hres
          simp only at hres
          have hl := rawJsonStage_length hrj
          rw [hres] at hl
          exact absurd hl (by decide)
        | none =>
          rw [hrj] at hres
          simp only at hres
          cases hc : classStage html with
          | some v =>
            rw [hc] at hres
            simp only at hres
            have hl := classStage_length hc
            rw [hres] at hl
            exact absurd hl (by decide)
          | none =>
            rw [hc] at hres
            simp only at hres
            exact ⟨rfl, rfl, rfl, rfl, hres⟩

/-- A page whose JSON-LD block carries a description of exactly 100
characters and nothing else. -/
def jsonLd100Page : String :=
  "<script type=\"application/ld+json\">\x7b\"description\":\"" ++
    String.mk (List.replicate 100 'a') ++ "\"\x7d</script>"

set_option maxRecDepth 40000 in
/-- C4 counterexample: a JSON-LD description of exactly 100 characters (so of
length ≥ 100, as the claim demands) is present, but the cascade rejects it —
the source requires strictly more than 100 characters — and, with every other
stage failing, returns the sentinel instead of the value. -/
theorem cascade_jsonld_100_counterexample :
    jsonLdRawMatch jsonLd100Page = some (String.mk (List.replicate 100 'a')) ∧
    (String.mk (List.replicate 100 'a')).length = 100 ∧
    cascadePure jsonLd100Page (fun _ => "NO_ABSTRACT_FOUND") = "NO_ABSTRACT_FOUND" ∧
    cascadePure jsonLd100Page (fun _ => "NO_ABSTRACT_FOUND") ≠
      String.mk (List.replicate 100 'a') :=
  ⟨by decide, by decide, by decide, by decide⟩

/-- A page with a 101-character JSON-LD description and a 150-character meta
description: a later cascade stage would also match. -/
def jsonLd101Page : String :=
  "<script type=\"application/ld+json\">\x7b\"description\":\"" ++
    String.mk (List.replicate 101 'a') ++ "\"\x7d</script><meta name=\"description\" content=\"" ++
    String.mk (List.replicate 150 'b') ++ "\">"

set_option maxRecDepth 80000 in
/-- C4 witness: on a page where both the JSON-LD stage (101 characters) and
the meta stage (150 characters) match, the cascade returns the JSON-LD
value. -/
theorem cascade_jsonld_priority_witness :
    (jsonLdRawMatch jsonLd101Page = some (String.mk (List.replicate 101 'a')) ∧
     (String.mk (List.replicate 101 'a')).length > 100 ∧
     metaStage jsonLd101Page = some (String.mk (List.replicate 150 'b'))) ∧
    cascadePure jsonLd101Page (fun _ => "NO_ABSTRACT_FOUND") =
      String.mk (List.replicate 101 'a') :=
  ⟨⟨by decide, by decide, by decide⟩,
   (cascade_jsonld_priority_and_sentinel jsonLd101Page _).1 _ (by decide) (by decide)⟩

theorem cacheLookup_cacheSet (c : UrlCooldownCache) (url : String) (t : Int) :
    cacheLookup (cacheSet c url t) url = some t := by
  unfold cacheLookup cacheSet
  rw [List.find?_cons_of_pos _ (by simp)]
  rfl

/-- C5 (amended): a second invocation for the same URL less than 30 seconds
after the URL's recorded last fetch — the most recent invocation that was not
itself short-circuited — returns the `NO_ABSTRACT_FOUND` sentinel, leaves the
cache unchanged and performs no network fetch. -/
theorem fetchAbstractFromUrl_cooldown (cache : UrlCooldownCache) (url : String)
    (now1 now2 : Int) (page1 page2 : FetchPage) (cp1 cp2 : Option FetchPage)
    (llm1 llm2 : String → String)
    (hproceed : cooldownActive cache url now1 = false)
    (hwin : now2 - now1 < 30000) :
    fetchAbstractFromUrl ((fetchAbstractFromUrl cache url now1 page1 cp1 llm1).2.1)
        url now2 page2 cp2 llm2 =
      ("NO_ABSTRACT_FOUND", (fetchAbstractFromUrl cache url now1 page1 cp1 llm1).2.1,
        false) := by
  have hc1 : (fetchAbstractFromUrl cache url now1 page1 cp1 llm1).2.1 =
      cacheSet cache url now1 := by
    unfold fetchAbstractFromUrl
    rw [if_neg (by rw [hproceed]; exact Bool.false_ne_true)]
  rw [hc1]
  have hactive : cooldownActive (cacheSet cache url now1) url now2 = true := by
    unfold cooldownActive
    rw [cacheLookup_cacheSet]
    simpa using hwin
  unfold fetchAbstractFromUrl
  rw [if_pos hactive]

/-- C5 witness for the amended claim: a fetch recorded at time 0, then a
second call at 29999 ms is short-circuited. -/
theorem fetchAbstractFromUrl_cooldown_witness :
    (cooldownActive ⟨[]⟩ "u" 0 = false ∧ (29999 : Int) - 0 < 30000) ∧
    fetchAbstractFromUrl ((fetchAbstractFromUrl ⟨[]⟩ "u" 0 ⟨200, ""⟩ none
        (fun _ => "NO_ABSTRACT_FOUND")).2.1) "u" 29999 ⟨200, ""⟩ none
        (fun _ => "NO_ABSTRACT_FOUND") =
      ("NO_ABSTRACT_FOUND",
       (fetchAbstractFromUrl ⟨[]⟩ "u" 0 ⟨200, ""⟩ none
         (fun _ => "NO_ABSTRACT_FOUND")).2.1, false) :=
  ⟨⟨by decide, by decide⟩,
   fetchAbstractFromUrl_cooldown ⟨[]⟩ "u" 0 29999 ⟨200, ""⟩ ⟨200, ""⟩ none none
     _ _ (by decide) (by decide)⟩

/-- C5 counterexample: after a fetch at 0 ms, a short-circuited invocation at
29000 ms does not refresh the timestamp, so an invocation at 31000 ms — less
than 30 seconds after that previous invocation — still performs a network
fetch, contrary to the claim's "after a previous invocation" reading. -/
theorem fetchAbstractFromUrl_cooldown_counterexample :
    (fetchAbstractFromUrl ⟨[]⟩ "u" 0 ⟨200, ""⟩ none
        (fun _ => "NO_ABSTRACT_FOUND")).2.1 = ⟨[("u", 0)]⟩ ∧
    fetchAbstractFromUrl ⟨[("u", 0)]⟩ "u" 29000 ⟨200, ""⟩ none
        (fun _ => "NO_ABSTRACT_FOUND") =
      ("NO_ABSTRACT_FOUND", ⟨[("u", 0)]⟩, false) ∧
    ((31000 : Int) - 29000 < 30000) ∧
    (fetchAbstractFromUrl ⟨[("u", 0)]⟩ "u" 31000 ⟨200, ""⟩ none
        (fun _ => "NO_ABSTRACT_FOUND")).2.2 = true :=
  ⟨by decide, by decide, by decide, by decide⟩

/-! ### Document resolver (`attemptDownload` inside `handleDownloadPaper`,
proxy.js 2444-2730)

The recursion of `attemptDownload` is guarded by `depth < 2` and every call
makes at most one recursive call at `depth + 1`, so from the entry point
(`depth = 0`) the call chain is at most three deep. The embedding writes the
body once (`attemptStep`, parametric in the recursive continuation) and nests
it three times; the innermost continuation is unreachable because the third
nesting level runs at `depth = 2`, where the `depth < 2` guard blocks
recursion. This keeps the definition structurally recursive and
kernel-computable while preserving the source's guard logic verbatim. -/

/-- What one gateway fetch of a document URL produced; `failed` models a
thrown fetch (network error or the 5 s timeout abort). -/
structure NetResp where
  failed : Bool
  status : Nat
  contentType : String
  body : String
deriving Repr, DecidableEq

/-- A resolved document (`DownloadedDocument`, proxy.js 2632-2641/2715-2724).
The random `id` and wall-clock `timestamp` fields are UI bookkeeping and are
omitted. `dtype` is the source's `type` field. -/
structure DownloadedDocument where
  paperId : Nat
  title : String
  dtype : String
  content : String
  textContent : String
  originalUrl : String
deriving Repr, DecidableEq

/-- The download-session state: `globalFetchedUrls` / `globalRequestCount`
(proxy.js 2445-2447), the `visitedUrls` set (threaded by reference through
the recursion), the persisted block-list (`storageService`), the
semantic-reader 202 breaker (proxy.js 1535-1537), and an audit log recording
`(urlKey, depth)` for every fetch actually issued. -/
structure DLState where
  fetchedKeys : List String
  requestCount : Nat
  visited : List String
  blocked : List (String × String)
  srFailCount : Nat
  srDisabled : Bool
  fetchLog : List (String × Nat)
deriving Repr, DecidableEq

/-- `url.split('?')[0].split('#')[0]` (proxy.js 2481). -/
def urlKeyOf (url : String) : String :=
  String.mk ((url.data.takeWhile fun c => c != '?').takeWhile fun c => c != '#')

/-- `^https?:\/\/(www\.)?` removal: `www.` is stripped only when a scheme
matched (the regex is anchored as a whole). -/
def stripSchemeWww (s : List Char) : List Char :=
  if leadsWith "https://".data s then
    let r := s.drop 8
    if leadsWith "www.".data r then r.drop 4 else r
  else if leadsWith "http://".data s then
    let r := s.drop 7
    if leadsWith "www.".data r then r.drop 4 else r
  else s

/-- `normalizeUrl` (proxy.js 2489): scheme/www stripped, then fragment, then
query. -/
def normalizeUrl (url : String) : String :=
  String.mk (((stripSchemeWww url.data).takeWhile fun c => c != '#').takeWhile
    fun c => c != '?')

/-- `.replace(/&amp;/g, '&')` (proxy.js 2674). -/
def replaceAmpEnt : List Char → List Char
  | '&' :: 'a' :: 'm' :: 'p' :: ';' :: rest => '&' :: replaceAmpEnt rest
  | c :: rest => c :: replaceAmpEnt rest
  | [] => []

/-- `new URL(u).origin` for absolute http(s) URLs; `none` models the
constructor throwing (caught in the source). -/
def urlOrigin (url : String) : Option String :=
  if leadsWith "https://".data url.data then
    let hostpart := (url.data.drop 8).takeWhile fun c => c != '/' && c != '?' && c != '#'
    if hostpart.isEmpty then none else some (String.mk ("https://".data ++ hostpart))
  else if leadsWith "http://".data url.data then
    let hostpart := (url.data.drop 7).takeWhile fun c => c != '/' && c != '?' && c != '#'
    if hostpart.isEmpty then none else some (String.mk ("http://".data ++ hostpart))
  else none

/-- `.replace(/\/$/, '')`: one trailing slash removed. -/
def stripTrailingSlash (s : String) : String :=
  match s.data.reverse with
  | '/' :: rest => String.mk rest.reverse
  | _ => s

/-- Deep-link regex 1 (proxy.js 2665):
`<meta\s+name="citation_pdf_url"\s+content="([^"]*)"`. -/
def citationPdfMatcher (s : List Char) : Option (List Char) :=
  match matchLitCI "<meta".data s with
  | none => none
  | some s1 =>
    match matchWs1 s1 with
    | none => none
    | some s2 =>
      match matchLitCI "name=\"citation_pdf_url\"".data s2 with
      | none => none
      | some s3 =>
        match matchWs1 s3 with
        | none => none
        | some s4 =>
          match matchLitCI "content=\"".data s4 with
          | none => none
          | some s5 => (captureUntil '"' s5).map Prod.fst

/-- Deep-link regex 2 (proxy.js 2666):
`content="([^"]*)"\s+name="citation_pdf_url"`. -/
def citationPdfRevMatcher (s : List Char) : Option (List Char) :=
  match matchLitCI "content=\"".data s with
  | none => none
  | some s1 =>
    match captureUntil '"' s1 with
    | none => none
    | some (cap, s2) =>
      match matchWs1 s2 with
      | none => none
      | some s3 => (matchLitCI "name=\"citation_pdf_url\"".data s3).map fun _ => cap

/-- Deep-link regex 3 (proxy.js 2667): `href="([^"]*\/reader\/[^"]*)"`. -/
def readerHrefMatcher (s : List Char) : Option (List Char) :=
  match matchLitCI "href=\"".data s with
  | none => none
  | some s1 =>
    match captureUntil '"' s1 with
    | none => none
    | some (cap, _) => if containsSubCI "/reader/".data cap then some cap else none

/-- Scan a tag's remainder (before its `>`) for `class="…"` whose value
contains the reader-link class (the `[^>]*class="[^"]*…[^"]*"` tail of
deep-link regex 4). -/
def readerClassTail (cap : List Char) : List Char → Option (List Char)
  | [] => none
  | c :: rest =>
    match
      (if leadsWithCI "class=\"".data (c :: rest) then
        let afterQ := (c :: rest).drop 7
        let span := afterQ.takeWhile fun x => x != '"'
        match afterQ.drop span.length with
        | '"' :: _ =>
          if containsSubCI "cl-paper-action__reader-link".data span then some cap else none
        | _ => none
      else none) with
    | some r => some r
    | none => if c = '>' then none else readerClassTail cap rest

/-- Deep-link regex 4 (proxy.js 2668):
`href="([^"]*)"[^>]*class="[^"]*(?:cl-paper-action__reader-link)[^"]*"`. -/
def readerClassMatcher (s : List Char) : Option (List Char) :=
  match matchLitCI "href=\"".data s with
  | none => none
  | some s1 =>
    match captureUntil '"' s1 with
    | none => none
    | some (cap, s2) => readerClassTail cap s2

/-- The `[^>]*href="([^"]*)"` tail of deep-link regex 5. -/
def ariaHrefTail : List Char → Option (List Char)
  | [] => none
  | c :: rest =>
    if leadsWithCI "href=\"".data (c :: rest) then
      (captureUntil '"' ((c :: rest).drop 6)).map Prod.fst
    else if c = '>' then none else ariaHrefTail rest

/-- Deep-link regex 5 (proxy.js 2669):
`aria-label="Semantic Reader"[^>]*href="([^"]*)"`. -/
def ariaReaderMatcher (s : List Char) : Option (List Char) :=
  match matchLitCI "aria-label=\"Semantic Reader\"".data s with
  | none => none
  | some s1 => ariaHrefTail s1

/-- The `||`-chain of the five deep-link regexes (proxy.js 2664-2669): the
first regex that matches wins, and its capture — possibly empty — is the
result. -/
def findDeepLink (html : String) : Option (List Char) :=
  match scanFirst citationPdfMatcher html.data with
  | some cap => some cap
  | none =>
    match scanFirst citationPdfRevMatcher html.data with
    | some cap => some cap
    | none =>
      match scanFirst readerHrefMatcher html.data with
      | some cap => some cap
      | none =>
        match scanFirst readerClassMatcher html.data with
        | some cap => some cap
        | none => scanFirst ariaReaderMatcher html.data

/-- Entity-decode the captured link and resolve a leading-`/` relative path
against the page's origin (proxy.js 2673-2682). -/
def resolveDeepLink (targetUrl : String) (cap : List Char) : String :=
  let dl := replaceAmpEnt cap
  match dl with
  | '/' :: _ =>
    match urlOrigin targetUrl with
    | some origin => origin ++ String.mk dl
    | none => String.mk dl
  | _ => String.mk dl

/-- Content-type sniffing (proxy.js 2573-2582): a `%PDF` signature in the
first five body bytes overrides the declared header. -/
def sniffContentType (headerCT : String) (body : String) : String :=
  if containsSub "%PDF".data (body.data.take 5) then "application/pdf" else headerCT

/-- PDF-branch test (proxy.js 2585). -/
def isPdfBranch (ct : String) : Bool :=
  strContains ct "application/pdf" || strContains ct "octet-stream"

/-- HTML-branch test (proxy.js 2646). -/
def isHtmlBranch (ct : String) : Bool :=
  strContains ct "text/html"

/-- `htmlText.replace(/<[^>]*>?/gm, ' ')` (proxy.js 2721): tags (with the
closing `>` optional, so an unterminated tag eats the rest) become spaces. -/
def stripTagsOptF : Nat → List Char → List Char
  | 0, s => s
  | _ + 1, [] => []
  | fuel + 1, c :: rest =>
    if c = '<' then
      match rest.dropWhile (fun x => x != '>') with
      | '>' :: rest2 => ' ' :: stripTagsOptF fuel rest2
      | _ => [' ']
    else c :: stripTagsOptF fuel rest

/-- Replace the first occurrence of a literal (JavaScript
`String.prototype.replace` with a string pattern). -/
def replaceFirstLit (pat repl : List Char) : List Char → List Char
  | [] => []
  | c :: rest =>
    if leadsWith pat (c :: rest) then repl ++ (c :: rest).drop pat.length
    else c :: replaceFirstLit pat repl rest

/-- `<base>` tag injection (proxy.js 2699-2710): after `<head>` when present,
otherwise prepended; skipped when the URL does not parse. -/
def injectBase (targetUrl html : String) : String :=
  match urlOrigin targetUrl with
  | none => html
  | some origin =>
    let baseTag := "<base href=\"" ++ origin ++ "\" target=\"_blank\">"
    if strContains html "<head>" then
      String.mk (replaceFirstLit "<head>".data ("<head>".data ++ baseTag.data) html.data)
    else baseTag ++ html

/-- Case-sensitive lazy capture up to a closing literal. -/
def captureToCloseCS (closePat : List Char) : List Char → Option (List Char × List Char)
  | [] => none
  | c :: rest =>
    if leadsWith closePat (c :: rest) then some ([], (c :: rest).drop closePat.length)
    else (captureToCloseCS closePat rest).map fun p => (c :: p.1, p.2)

/-- `finalHtml.replace(/<script\b[^>]*>([\s\S]*?)<\/script>/gm, "")`
(proxy.js 2713), case-sensitive. -/
def stripScriptBlocksCS : Nat → List Char → List Char
  | 0, s => s
  | _ + 1, [] => []
  | fuel + 1, c :: rest =>
    if leadsWith "<script".data (c :: rest) then
      if (match (c :: rest).drop 7 with
          | a :: _ => isWordChar a
          | [] => false) then
        c :: stripScriptBlocksCS fuel rest
      else
        match tagEndAfter ((c :: rest).drop 7) with
        | some afterGt =>
          match captureToCloseCS "</script>".data afterGt with
          | some (_, rest2) => stripScriptBlocksCS fuel rest2
          | none => c :: stripScriptBlocksCS fuel rest
        | none => c :: stripScriptBlocksCS fuel rest
    else c :: stripScriptBlocksCS fuel rest

/-- A document resolver: URL, depth, `requirePdf` and session state to result
and updated state. -/
def Resolver : Type :=
  String → Nat → Bool → DLState → Option DownloadedDocument × DLState

/-- The html Document built at proxy.js 2696-2724: base tag injected, script
blocks stripped, text content from de-tagged html truncated to 10000. -/
def htmlDocumentOf (title : String) (index : Nat) (url htmlText : String) :
    DownloadedDocument :=
  { paperId := index, title := title, dtype := "html",
    content := String.mk (stripScriptBlocksCS
      (injectBase url htmlText).data.length (injectBase url htmlText).data),
    textContent := String.mk
      ((stripTagsOptF htmlText.data.length htmlText.data).take 10000),
    originalUrl := url }

/-- The deep-link scan and recursion of the HTML branch (proxy.js 2662-2694):
only under `depth < 2`, only for a non-empty capture, with the visited-set
loop protection and the mutual-substring heuristic; recursion passes
`requirePdf = false`. -/
def deepLinkAttempt (recurse : Resolver) (url : String) (depth : Nat)
    (htmlText : String) (st : DLState) : Option DownloadedDocument × DLState :=
  if depth < 2 then
    match findDeepLink htmlText with
    | some cap =>
      if cap.isEmpty then (none, st)
      else
        let deepLink := resolveDeepLink url cap
        if st.visited.contains deepLink || st.visited.contains (deepLink ++ "/") ||
            st.visited.contains (stripTrailingSlash deepLink) then (none, st)
        else if deepLink != url && !strContains deepLink url &&
            !strContains url deepLink then
          recurse deepLink (depth + 1) false st
        else (none, st)
    | none => (none, st)
  else (none, st)

/-- Response classification and processing (proxy.js 2536-2727), applied to
the state in which the fetch has been logged. 429 ⇒ block and abort;
202 ⇒ abort, escalating the semantic-reader fail counter (threshold 3,
proxy.js 2548-2562); then content-type sniffing. In the PDF branch the
source returns null for sub-1000-byte bodies, and the Document-building code
that follows sits after that `return null` *inside the same block*
(proxy.js 2592-2641), so it is unreachable and larger PDF bodies fall
through past the branch to the final `return null`. -/
def processResponse (title : String) (index : Nat) (recurse : Resolver)
    (url : String) (depth : Nat) (requirePdf : Bool) (resp : NetResp)
    (st : DLState) : Option DownloadedDocument × DLState :=
  if resp.failed then (none, st)
  else if resp.status == 429 then
    (none, { st with blocked := st.blocked ++ [(url, "Status 429")] })
  else if resp.status == 202 then
    if strContains url "semanticscholar.org" then
      (none, { st with srFailCount := st.srFailCount + 1,
                       srDisabled := st.srDisabled ||
                         decide (st.srFailCount + 1 ≥ 3) })
    else (none, st)
  else
    let contentType := sniffContentType resp.contentType resp.body
    match
      (if isPdfBranch contentType then
        if resp.body.length < 1000 then
          some ((none, st) : Option DownloadedDocument × DLState)
        else none
      else none) with
    | some r => r
    | none =>
      if isHtmlBranch contentType then
        if requirePdf && !strContains url "semanticscholar.org" then (none, st)
        else
          match deepLinkAttempt recurse url depth resp.body st with
          | (some doc, st5) => (some doc, st5)
          | (none, st5) => (some (htmlDocumentOf title index url resp.body), st5)
      else (none, st)

/-- One level of `attemptDownload` (proxy.js 2471-2730), parametric in the
recursive continuation `recurse` used at the deep-link site (proxy.js 2690):
the entry guards — request counter incremented first and capped at 10,
once-per-session fetch of each `urlKey`, visited-set loop protection,
persisted block-list, depth cap — then the fetch, recorded in `fetchLog` as
`(urlKey, depth)`, and the response processing. -/
def attemptStep (net : String → NetResp) (title : String) (index : Nat)
    (recurse : Resolver) : Resolver := fun url depth requirePdf st =>
  let st1 : DLState := { st with requestCount := st.requestCount + 1 }
  if st1.requestCount > 10 then (none, st1)
  else
    let urlKey := urlKeyOf url
    if st1.fetchedKeys.contains urlKey then (none, st1)
    else
      let st2 : DLState := { st1 with fetchedKeys := urlKey :: st1.fetchedKeys }
      let normUrl := normalizeUrl url
      if st2.visited.contains normUrl then (none, st2)
      else
        let st3 : DLState := { st2 with visited := url :: normUrl :: st2.visited }
        if st3.blocked.any fun b => b.1 == url then (none, st3)
        else if depth > 2 then (none, st3)
        else
          processResponse title index recurse url depth requirePdf (net url)
            { st3 with fetchLog := st3.fetchLog ++ [(urlKey, depth)] }

/-- The unreachable innermost continuation: only invoked from a nesting level
running at `depth ≥ 2`, where the `depth < 2` guard prevents recursion. -/
def resolverStop : Resolver := fun _ _ _ st => (none, st)

/-- `attemptDownload` (proxy.js 2471-2730) as entered by
`handleDownloadPaper`: the recursion unrolled three levels (sufficient from
`depth = 0` because recursion happens only under `depth < 2`). -/
def attemptDownload (net : String → NetResp) (title : String) (index : Nat) : Resolver :=
  attemptStep net title index
    (attemptStep net title index (attemptStep net title index resolverStop))

/-! ### C6-C9 theorems -/

/-- Session invariant tying the fetch audit log to the request counter and
the once-per-key guard: logged keys are distinct and all registered in
`fetchedKeys`, the log never outgrows `min requestCount 10`, and every logged
fetch happened at depth ≤ 2. -/
def LogInv (st : DLState) : Prop :=
  (st.fetchLog.map Prod.fst).Nodup ∧
  (∀ k ∈ st.fetchLog.map Prod.fst, k ∈ st.fetchedKeys) ∧
  st.fetchLog.length ≤ min st.requestCount 10 ∧
  (∀ e ∈ st.fetchLog, e.2 ≤ 2)

/-- A resolver preserves the session invariant. -/
def PreservesInv (f : Resolver) : Prop :=
  ∀ url depth rp st, LogInv st → LogInv (f url depth rp st).2

theorem resolverStop_preserves : PreservesInv resolverStop := by
  intro url depth rp st h
  exact h

theorem match_snd (p : Option DownloadedDocument × DLState) (d : DownloadedDocument) :
    (match p with
     | (some doc, st5) => (some doc, st5)
     | (none, st5) => (some d, st5)).2 = p.2 := by
  rcases p with ⟨_ | doc, s⟩ <;> rfl

theorem deepLinkAttempt_preserves (recurse : Resolver) (hrec : PreservesInv recurse)
    (url : String) (depth : Nat) (htmlText : String) (st : DLState) (h : LogInv st) :
    LogInv (deepLinkAttempt recurse url depth htmlText st).2 := by
  unfold deepLinkAttempt
  split
  · split
    · split
      · exact h
      · dsimp only
        split
        · exact h
        · split
          · exact hrec _ _ _ _ h
          · exact h
    · exact h
  · exact h

theorem processResponse_preserves (title : String) (index : Nat) (recurse : Resolver)
    (hrec : PreservesInv recurse) (url : String) (depth : Nat) (requirePdf : Bool)
    (resp : NetResp) (st : DLState) (h : LogInv st) :
    LogInv (processResponse title index recurse url depth requirePdf resp st).2 := by
  obtain ⟨a1, a2, a3, a4⟩ := h
  unfold processResponse
  split
  · exact ⟨a1, a2, a3, a4⟩
  · split
    · exact ⟨a1, a2, a3, a4⟩
    · split
      · split
        · exact ⟨a1, a2, a3, a4⟩
        · exact ⟨a1, a2, a3, a4⟩
      · dsimp only
        split
        next r heq =>
          have hr : r.2 = st := by
            split at heq
            · split at heq
              · cases heq
                rfl
              · cases heq
            · cases heq
          rw [hr]
          exact ⟨a1, a2, a3, a4⟩
        next heq =>
          split
          · split
            · exact ⟨a1, a2, a3, a4⟩
            · rw [match_snd]
              exact deepLinkAttempt_preserves recurse hrec url depth resp.body st
                ⟨a1, a2, a3, a4⟩
          · exact ⟨a1, a2, a3, a4⟩

theorem attemptStep_preserves (net : String → NetResp) (title : String) (index : Nat)
    (recurse : Resolver) (hrec : PreservesInv recurse) :
    PreservesInv (attemptStep net title index recurse) := by
  intro url depth rp st hinv
  obtain ⟨hnd, hsub, hlen, hdep⟩ := hinv
  unfold attemptStep
  dsimp only
  split
  next h1 => exact ⟨hnd, hsub, by dsimp only; omega, hdep⟩
  next h1 =>
  split
  next h2 => exact ⟨hnd, hsub, by dsimp only; omega, hdep⟩
  next h2 =>
  split
  next h3 =>
    exact ⟨hnd, fun k hk => List.mem_cons_of_mem _ (hsub k hk), by dsimp only; omega, hdep⟩
  next h3 =>
  split
  next h4 =>
    exact ⟨hnd, fun k hk => List.mem_cons_of_mem _ (hsub k hk), by dsimp only; omega, hdep⟩
  next h4 =>
  split
  next h5 =>
    exact ⟨hnd, fun k hk => List.mem_cons_of_mem _ (hsub k hk), by dsimp only; omega, hdep⟩
  next h5 =>
  apply processResponse_preserves _ _ _ hrec
  have hkey : urlKeyOf url ∉ st.fetchedKeys := by
    simpa [List.elem_iff] using h2
  refine ⟨?_, ?_, ?_, ?_⟩
  · dsimp only
    rw [List.map_append, List.nodup_append]
    refine ⟨hnd, by simp, ?_⟩
    intro a ha hb
    simp only [List.map_cons, List.map_nil, List.mem_singleton] at hb
    subst hb
    exact hkey (hsub _ ha)
  · intro k hk
    dsimp only at hk ⊢
    rw [List.map_append] at hk
    rcases List.mem_append.mp hk with hk | hk
    · exact List.mem_cons_of_mem _ (hsub k hk)
    · simp only [List.map_cons, List.map_nil, List.mem_singleton] at hk
      subst hk
      exact List.mem_cons_self _ _
  · dsimp only
    rw [List.length_append]
    simp only [List.length_singleton]
    omega
  · intro e he
    dsimp only at he
    rcases List.mem_append.mp he with he | he
    · exact hdep e he
    · rcases List.mem_singleton.mp he with rfl
      dsimp only
      omega

theorem attemptDownload_preserves (net : String → NetResp) (title : String)
    (index : Nat) : PreservesInv (attemptDownload net title index) :=
  attemptStep_preserves _ _ _ _ (attemptStep_preserves _ _ _ _
    (attemptStep_preserves _ _ _ _ resolverStop_preserves))

/-- A concrete cyclic link graph: page A deep-links to page B and page B
deep-links back to page A. -/
def netCycle : String → NetResp := fun u =>
  if u = "https://a.org/x" then
    ⟨false, 200, "text/html",
     "<meta name=\"citation_pdf_url\" content=\"https://b.org/y\">"⟩
  else if u = "https://b.org/y" then
    ⟨false, 200, "text/html",
     "<meta name=\"citation_pdf_url\" content=\"https://a.org/x\">"⟩
  else ⟨true, 0, "", ""⟩

set_option maxRecDepth 100000 in
/-- C6: for every link graph (`net`), cycles included, a download session
started at depth 0 with the counters freshly reset terminates (the embedding
is a total function whose recursion is bounded by the `depth < 2` guard),
issues at most 10 fetches, never fetches the same normalized URL (query and
fragment stripped) twice, and never fetches past depth 2; on the concrete
cycle A→B→A the session stops after exactly the two fetches A (depth 0) and
B (depth 1). -/
theorem attemptDownload_session_caps (net : String → NetResp) (title : String)
    (index : Nat) (url : String) (blocked0 : List (String × String))
    (n0 : Nat) (b0 : Bool) :
    ((attemptDownload net title index url 0 false
        ⟨[], 0, [], blocked0, n0, b0, []⟩).2.fetchLog.length ≤ 10) ∧
    ((attemptDownload net title index url 0 false
        ⟨[], 0, [], blocked0, n0, b0, []⟩).2.fetchLog.map Prod.fst).Nodup ∧
    (∀ e ∈ (attemptDownload net title index url 0 false
        ⟨[], 0, [], blocked0, n0, b0, []⟩).2.fetchLog, e.2 ≤ 2) ∧
    (attemptDownload netCycle "T" 0 "https://a.org/x" 0 false
        ⟨[], 0, [], [], 0, false, []⟩).2.fetchLog =
      [("https://a.org/x", 0), ("https://b.org/y", 1)] := by
  have h0 : LogInv ⟨[], 0, [], blocked0, n0, b0, []⟩ := by
    refine ⟨?_, ?_, ?_, ?_⟩
    · exact List.nodup_nil
    · intro k hk
      simp at hk
    · simp
    · intro e he
      simp at he
  obtain ⟨i1, i2, i3, i4⟩ := attemptDownload_preserves net title index url 0 false _ h0
  exact ⟨i3.trans (min_le_right _ _), i1, i4, by decide⟩

theorem leadsWith_of_take {pat l : List Char} (h : l.take pat.length = pat) :
    leadsWith pat l = true := by
  induction pat generalizing l with
  | nil => rfl
  | cons p ps ih =>
    cases l with
    | nil => simp at h
    | cons c cs =>
      simp only [List.length_cons, List.take_succ_cons, List.cons.injEq] at h
      obtain ⟨rfl, h2⟩ := h
      simp [leadsWith, ih h2]

theorem containsSub_of_take {pat l : List Char} (h : l.take pat.length = pat) :
    containsSub pat l = true := by
  cases l with
  | nil =>
    rw [containsSub]
    exact leadsWith_of_take h
  | cons c cs =>
    rw [containsSub]
    rw [leadsWith_of_take h]
    rfl

/-- C7: for every response whose body begins with the `%PDF` magic bytes, the
resolver's content-type sniffing classifies it as `application/pdf`,
overriding any declared header (in particular `text/html`): the PDF branch
test holds and the HTML branch test fails on the sniffed type. -/
theorem sniff_pdf_overrides_header (headerCT body : String)
    (h : body.data.take 4 = "%PDF".data) :
    sniffContentType headerCT body = "application/pdf" ∧
    isPdfBranch (sniffContentType headerCT body) = true ∧
    isHtmlBranch (sniffContentType headerCT body) = false := by
  have htake : (body.data.take 5).take 4 = "%PDF".data := by
    rw [List.take_take]
    simpa using h
  have hlen4 : ("%PDF".data).length = 4 := rfl
  have hc : containsSub "%PDF".data (body.data.take 5) = true :=
    containsSub_of_take (by rw [hlen4]; exact htake)
  have hs : sniffContentType headerCT body = "application/pdf" := by
    unfold sniffContentType
    rw [hc]
    rfl
  exact ⟨hs, by rw [hs]; decide, by rw [hs]; decide⟩

/-- C7 witness: a response declaring `text/html` whose body begins with
`%PDF-1.4` is sniffed as a PDF; at the resolver level the PDF branch handles
it (here rejecting the 8-byte body as tiny) instead of returning it as an
html Document. -/
theorem sniff_pdf_overrides_header_witness :
    ("%PDF-1.4".data.take 4 = "%PDF".data) ∧
    (sniffContentType "text/html" "%PDF-1.4" = "application/pdf" ∧
     isPdfBranch (sniffContentType "text/html" "%PDF-1.4") = true ∧
     isHtmlBranch (sniffContentType "text/html" "%PDF-1.4") = false) ∧
    (attemptDownload (fun _ => ⟨false, 200, "text/html", "%PDF-1.4"⟩) "T" 0
        "https://x.org/p" 0 false ⟨[], 0, [], [], 0, false, []⟩).1 = none :=
  ⟨by decide, sniff_pdf_overrides_header "text/html" "%PDF-1.4" (by decide), by decide⟩

theorem attemptStep_fetches (net : String → NetResp) (title : String) (index : Nat)
    (recurse : Resolver) (url : String) (depth : Nat) (rp : Bool) (st : DLState)
    (h1 : ¬ st.requestCount + 1 > 10)
    (h2 : st.fetchedKeys.contains (urlKeyOf url) = false)
    (h3 : st.visited.contains (normalizeUrl url) = false)
    (h4 : (st.blocked.any fun b => b.1 == url) = false)
    (h5 : ¬ depth > 2) :
    attemptStep net title index recurse url depth rp st =
      processResponse title index recurse url depth rp (net url)
        { st with requestCount := st.requestCount + 1,
                  fetchedKeys := urlKeyOf url :: st.fetchedKeys,
                  visited := url :: normalizeUrl url :: st.visited,
                  fetchLog := st.fetchLog ++ [(urlKeyOf url, depth)] } := by
  unfold attemptStep
  dsimp only
  rw [if_neg h1]
  rw [if_neg (show ¬ (st.fetchedKeys.contains (urlKeyOf url) = true) by rw [h2]; decide)]
  rw [if_neg (show ¬ (st.visited.contains (normalizeUrl url) = true) by rw [h3]; decide)]
  rw [if_neg (show ¬ ((st.blocked.any fun b => b.1 == url) = true) by rw [h4]; decide)]
  rw [if_neg h5]

/-- C8 (amended): with the entry guards passing, a fetched status 429 records
the URL in the persisted block-list with reason "Status 429" and aborts the
path; a fetched status 202 aborts the path without any permanent block,
escalating the semantic-reader fail counter (breaker tripping at 3) when the
URL is a semanticscholar.org one; and the statuses 401, 403 and 504 are not
classified at all — the path is not aborted and the response falls through to
normal content processing (here yielding an html Document), with no
block-list entry. -/
theorem attemptDownload_status_classification (title : String) (index : Nat)
    (url : String) (body ct : String) (st : DLState)
    (h1 : ¬ st.requestCount + 1 > 10)
    (h2 : st.fetchedKeys.contains (urlKeyOf url) = false)
    (h3 : st.visited.contains (normalizeUrl url) = false)
    (h4 : (st.blocked.any fun b => b.1 == url) = false) :
    (∀ net : String → NetResp, net url = ⟨false, 429, ct, body⟩ →
      (attemptDownload net title index url 0 false st).1 = none ∧
      (attemptDownload net title index url 0 false st).2.blocked =
        st.blocked ++ [(url, "Status 429")]) ∧
    (∀ net : String → NetResp, net url = ⟨false, 202, ct, body⟩ →
      (attemptDownload net title index url 0 false st).1 = none ∧
      (attemptDownload net title index url 0 false st).2.blocked = st.blocked ∧
      (attemptDownload net title index url 0 false st).2.srFailCount =
        (if strContains url "semanticscholar.org" then st.srFailCount + 1
         else st.srFailCount) ∧
      (attemptDownload net title index url 0 false st).2.srDisabled =
        (if strContains url "semanticscholar.org" then
           st.srDisabled || decide (st.srFailCount + 1 ≥ 3)
         else st.srDisabled)) ∧
    (∀ (net : String → NetResp) (s : Nat), s = 401 ∨ s = 403 ∨ s = 504 →
      net url = ⟨false, s, "text/html", body⟩ →
      containsSub "%PDF".data (body.data.take 5) = false →
      findDeepLink body = none →
      (attemptDownload net title index url 0 false st).1 =
        some (htmlDocumentOf title index url body) ∧
      (attemptDownload net title index url 0 false st).2.blocked = st.blocked) := by
  refine ⟨?_, ?_, ?_⟩
  · intro net hnet
    unfold attemptDownload
    rw [attemptStep_fetches net title index _ url 0 false st h1 h2 h3 h4 (by omega), hnet]
    unfold processResponse
    simp
  · intro net hnet
    unfold attemptDownload
    rw [attemptStep_fetches net title index _ url 0 false st h1 h2 h3 h4 (by omega), hnet]
    unfold processResponse
    by_cases hsem : strContains url "semanticscholar.org" = true
    · simp [hsem]
    · simp [hsem]
  · intro net s hs hnet hbody hdeep
    have hp : isPdfBranch "text/html" = false := by decide
    have hh : isHtmlBranch "text/html" = true := by decide
    unfold attemptDownload
    rw [attemptStep_fetches net title index _ url 0 false st h1 h2 h3 h4 (by omega), hnet]
    unfold processResponse
    have hsniff : sniffContentType (NetResp.mk false s "text/html" body).contentType
        (NetResp.mk false s "text/html" body).body = "text/html" := by
      unfold sniffContentType
      dsimp only
      rw [hbody]
      rfl
    rcases hs with rfl | rfl | rfl <;>
      simp [hsniff, hp, hh, deepLinkAttempt, hdeep]

/-- C8 witness: concrete 429 and 202 (semanticscholar) calls with a fresh
session. -/
theorem attemptDownload_status_classification_witness :
    (¬ (0 : Nat) + 1 > 10 ∧
     ([] : List String).contains (urlKeyOf "https://pub.example.org/a") = false) ∧
    ((attemptDownload (fun _ => ⟨false, 429, "text/html", "x"⟩) "T" 0
        "https://pub.example.org/a" 0 false ⟨[], 0, [], [], 0, false, []⟩).1 = none ∧
     (attemptDownload (fun _ => ⟨false, 429, "text/html", "x"⟩) "T" 0
        "https://pub.example.org/a" 0 false ⟨[], 0, [], [], 0, false, []⟩).2.blocked =
       [] ++ [("https://pub.example.org/a", "Status 429")]) ∧
    ((attemptDownload (fun _ => ⟨false, 202, "text/html", "x"⟩) "T" 0
        "https://www.semanticscholar.org/reader/abc" 0 false
        ⟨[], 0, [], [], 2, false, []⟩).1 = none ∧
     (attemptDownload (fun _ => ⟨false, 202, "text/html", "x"⟩) "T" 0
        "https://www.semanticscholar.org/reader/abc" 0 false
        ⟨[], 0, [], [], 2, false, []⟩).2.blocked = [] ∧
     (attemptDownload (fun _ => ⟨false, 202, "text/html", "x"⟩) "T" 0
        "https://www.semanticscholar.org/reader/abc" 0 false
        ⟨[], 0, [], [], 2, false, []⟩).2.srFailCount =
       (if strContains "https://www.semanticscholar.org/reader/abc"
            "semanticscholar.org" then 2 + 1 else 2) ∧
     (attemptDownload (fun _ => ⟨false, 202, "text/html", "x"⟩) "T" 0
        "https://www.semanticscholar.org/reader/abc" 0 false
        ⟨[], 0, [], [], 2, false, []⟩).2.srDisabled =
       (if strContains "https://www.semanticscholar.org/reader/abc"
            "semanticscholar.org" then false || decide (2 + 1 ≥ 3) else false)) :=
  ⟨⟨by decide, by decide⟩,
   (attemptDownload_status_classification "T" 0 "https://pub.example.org/a" "x"
      "text/html" ⟨[], 0, [], [], 0, false, []⟩ (by decide) (by decide) (by decide)
      (by decide)).1 _ rfl,
   (attemptDownload_status_classification "T" 0
      "https://www.semanticscholar.org/reader/abc" "x" "text/html"
      ⟨[], 0, [], [], 2, false, []⟩ (by decide) (by decide) (by decide)
      (by decide)).2.1 _ rfl⟩

/-- A response whose header honestly declares 403 with an html error page. -/
def net403 : String → NetResp := fun _ => ⟨false, 403, "text/html", "forbidden page"⟩

set_option maxRecDepth 40000 in
/-- C8 counterexample: a 403 response is neither recorded in the block-list
nor aborted — the resolver proceeds to content processing and returns an html
Document of the error page (only 429 and 202 are classified,
proxy.js 2537-2566). -/
theorem attemptDownload_403_counterexample :
    (attemptDownload net403 "T" 0 "https://pub.example.org/a" 0 false
        ⟨[], 0, [], [], 0, false, []⟩).2.blocked = [] ∧
    (attemptDownload net403 "T" 0 "https://pub.example.org/a" 0 false
        ⟨[], 0, [], [], 0, false, []⟩).1 ≠ none :=
  ⟨by decide, by decide⟩

/-- No returned Document is a PDF: every `some` result of the resolver is an
html Document. -/
def HtmlOnly (f : Resolver) : Prop :=
  ∀ url depth rp st doc, (f url depth rp st).1 = some doc → doc.dtype = "html"

theorem resolverStop_htmlOnly : HtmlOnly resolverStop := by
  intro url depth rp st doc h
  cases h

theorem deepLinkAttempt_htmlOnly (recurse : Resolver) (hrec : HtmlOnly recurse)
    (url : String) (depth : Nat) (htmlText : String) (st : DLState)
    (doc : DownloadedDocument)
    (h : (deepLinkAttempt recurse url depth htmlText st).1 = some doc) :
    doc.dtype = "html" := by
  unfold deepLinkAttempt at h
  split at h
  · split at h
    · split at h
      · cases h
      · dsimp only at h
        split at h
        · cases h
        · split at h
          · exact hrec _ _ _ _ _ h
          · cases h
    · cases h
  · cases h

theorem processResponse_htmlOnly (title : String) (index : Nat) (recurse : Resolver)
    (hrec : HtmlOnly recurse) (url : String) (depth : Nat) (rp : Bool)
    (resp : NetResp) (st : DLState) (doc : DownloadedDocument)
    (h : (processResponse title index recurse url depth rp resp st).1 = some doc) :
    doc.dtype = "html" := by
  unfold processResponse at h
  split at h
  · cases h
  · split at h
    · cases h
    · split at h
      · split at h
        · cases h
        · cases h
      · dsimp only at h
        split at h
        next r heq =>
          have hr : r.1 = (none : Option DownloadedDocument) := by
            split at heq
            · split at heq
              · cases heq
                rfl
              · cases heq
            · cases heq
          rw [hr] at h
          cases h
        next heq =>
          split at h
          · split at h
            · cases h
            · split at h
              next doc2 st5 heq2 =>
                cases h
                exact deepLinkAttempt_htmlOnly recurse hrec url depth resp.body st _
                  (by rw [heq2])
              next st5 heq2 =>
                cases h
                rfl
          · cases h

theorem attemptStep_htmlOnly (net : String → NetResp) (title : String) (index : Nat)
    (recurse : Resolver) (hrec : HtmlOnly recurse) :
    HtmlOnly (attemptStep net title index recurse) := by
  intro url depth rp st doc h
  unfold attemptStep at h
  dsimp only at h
  split at h
  · cases h
  · split at h
    · cases h
    · split at h
      · cases h
      · split at h
        · cases h
        · split at h
          · cases h
          · exact processResponse_htmlOnly title index recurse hrec url depth rp
              (net url) _ doc h

theorem attemptDownload_htmlOnly (net : String → NetResp) (title : String)
    (index : Nat) : HtmlOnly (attemptDownload net title index) :=
  attemptStep_htmlOnly _ _ _ _ (attemptStep_htmlOnly _ _ _ _
    (attemptStep_htmlOnly _ _ _ _ resolverStop_htmlOnly))

/-- A well-formed mislabeled PDF response: `%PDF` magic bytes, 1204-byte
body. -/
def netBigPdf : String → NetResp := fun _ =>
  ⟨false, 200, "application/pdf",
   String.mk ('%' :: 'P' :: 'D' :: 'F' :: List.replicate 1200 'x')⟩

set_option maxRecDepth 40000 in
/-- C9 (code bug): the claim matches the evident intent of the PDF branch,
but the Document-building code sits after the `return null` inside the
sub-1000-byte block (proxy.js 2591-2641) and is unreachable: a valid PDF
response of 1204 bytes yields `null`, and in fact no run of the resolver ever
returns a Document of type `pdf` — every returned Document is html. -/
theorem attemptDownload_pdf_branch_dead :
    (∀ (net : String → NetResp) (title : String) (index : Nat) (url : String)
       (depth : Nat) (rp : Bool) (st : DLState) (doc : DownloadedDocument),
       (attemptDownload net title index url depth rp st).1 = some doc →
         doc.dtype = "html") ∧
    1000 ≤ (netBigPdf "https://x.org/p.pdf").body.length ∧
    containsSub "%PDF".data
      ((netBigPdf "https://x.org/p.pdf").body.data.take 5) = true ∧
    (attemptDownload netBigPdf "T" 0 "https://x.org/p.pdf" 0 false
        ⟨[], 0, [], [], 0, false, []⟩).1 = none ∧
    (attemptDownload (fun _ => ⟨false, 200, "application/pdf", "%PDF-1.4"⟩) "T" 0
        "https://x.org/q.pdf" 0 false ⟨[], 0, [], [], 0, false, []⟩).1 = none := by
  refine ⟨?_, by decide, by decide, by decide, by decide⟩
  intro net title index url depth rp st doc h
  exact attemptDownload_htmlOnly net title index url depth rp st doc h

end Academia
